import Mathlib

/-!
# toml_serde: type-directed deserialization of a TOML document tree

A shallow embedding of `include/toml_serde/trait.h` and of the two sample
composites of `tests/`; a few more composites (`Server`, `Config`, `Shape`,
`Polygon`) stand for the examples of the specification.

* `namespace toml` holds the part of the document model (toml++) that the
  header reads: the node tree, `table::contains`, `table::at`.
* `namespace data` holds the header itself: the `Deserializer<T>`
  specializations, `_to_key`, `require`, `options`, and the body of the
  `TOML_DESERIALIZE(T, MEMBER)` composite descriptor.

Exceptions are modelled by `Except Error`, and the lines a call writes to
`std::cout` by the list of lines in the first component of `Out`.
-/

set_option autoImplicit false

namespace toml

/-- A `toml::date`: year, month, day. -/
structure date where
  year : Nat
  month : Nat
  day : Nat
  deriving DecidableEq, Repr

/-- A `toml::time`: hour, minute, second, nanosecond. -/
structure time where
  hour : Nat
  minute : Nat
  second : Nat
  nanosecond : Nat
  deriving DecidableEq, Repr

/-- A `toml::date_time`: a date, a time and an optional UTC offset in minutes. -/
structure date_time where
  date : date
  time : time
  offset : Option Int
  deriving DecidableEq, Repr

/-- A `double`, kept as its 64-bit pattern: the header never computes with it. -/
structure float64 where
  bits : Nat
  deriving DecidableEq, Repr

/-- A `toml::node`: the tagged union of the document model. An integer node
holds an `int64_t`; a table node holds its entries in iteration order. -/
inductive node where
  | boolean (b : Bool)
  | integer (i : Int)
  | floating_point (f : float64)
  | string (s : String)
  | date (d : toml.date)
  | time (t : toml.time)
  | date_time (dt : toml.date_time)
  | array (elems : List node)
  | table (entries : List (String × node))

/-- A `toml::table`: the entries of a table node, in iteration order. -/
abbrev table := List (String × node)

/-- The tag of a node (`toml::node_type`). -/
inductive node_type where
  | boolean | integer | floating_point | string | date | time | date_time | array | table
  deriving DecidableEq, Repr

/-- The tag of `v` (`node::type()`). -/
def node.type : node → node_type
  | .boolean _ => .boolean
  | .integer _ => .integer
  | .floating_point _ => .floating_point
  | .string _ => .string
  | .date _ => .date
  | .time _ => .time
  | .date_time _ => .date_time
  | .array _ => .array
  | .table _ => .table

/-- The node stored under `key` (`table::get`), `none` when there is none. -/
def table.get : table → String → Option node
  | [], _ => none
  | (k, v) :: rest, key => if k = key then some v else table.get rest key

/-- Whether the table has an entry under `key` (`table::contains`). -/
def table.contains (t : table) (key : String) : Bool :=
  (t.get key).isSome

end toml

/-! ### `std::filesystem::path`, `std::vector`, `std::map`

The parts of the C++ standard library the header calls. The paths are those
of libstdc++ (GCC 12) for POSIX pathnames: the separator is `/`, there is no
root name, and a path keeps the components it was built from. -/

namespace fs

/-- A `std::filesystem::path` as libstdc++ keeps it on POSIX: the pathname,
and the components an iteration over the path yields: the root directory
(`root`, empty when there is none) and then the filenames (`names`), the last
of them empty when the pathname ends in a separator after a filename. -/
structure path where
  native : String
  root : String
  names : List String
  deriving DecidableEq, Repr

/-- The pathname cut at every `/`: `a//b/` gives `a`, the empty word, `b`, the
empty word. -/
def split_slash : List Char → List (List Char)
  | [] => [[]]
  | c :: cs =>
    if c = '/' then [] :: split_slash cs
    else
      match split_slash cs with
      | [] => [[c]]
      | w :: ws => (c :: w) :: ws

/-- The path constructed from a string (`path(const string&)`). Leading
separators are one root directory `/`; runs of separators part the
filenames; a separator at the end, after a filename, gives a last empty
filename. A pathname of separators only is a single root directory whose text
is the whole pathname (`//` stays `//`). -/
def path.of_string (s : String) : path :=
  let words := (split_slash s.data).map String.mk
  let names := words.filter (fun w => w ≠ "")
  if names = [] then ⟨s, s, []⟩
  else
    ⟨s, if s.data.head? == some '/' then "/" else "",
      names ++ (if words.getLast? == some "" then [""] else [])⟩

/-- `path::empty`. -/
def path.empty (p : path) : Bool :=
  p.native == ""

/-- `path::is_absolute`: on POSIX, the path has a root directory. -/
def path.is_absolute (p : path) : Bool :=
  p.root != ""

/-- `path::is_relative`. -/
def path.is_relative (p : path) : Bool :=
  !p.is_absolute

/-- `path::has_filename`: the last component is a filename that is not
empty. -/
def path.has_filename (p : path) : Bool :=
  match p.names.getLast? with
  | none => false
  | some n => n != ""

/-- The filenames without an empty last one. -/
def drop_empty_last (names : List String) : List String :=
  if names.getLast? == some "" then names.dropLast else names

/-- `operator/` (the POSIX `operator/=` of libstdc++): an absolute right
operand, or any right operand when the left one is empty, replaces the left
operand; otherwise a separator is added when the left operand has a
filename, and the pathname and the components of the right operand are
appended (an empty right operand leaves an empty last filename). -/
def path.append (p q : path) : path :=
  if q.is_absolute || p.empty then q
  else if !p.has_filename && q.empty then p
  else
    ⟨p.native ++ (if p.has_filename then "/" else "") ++ q.native, p.root,
      drop_empty_last p.names ++ (if q.empty then [""] else q.names)⟩

/-- One filename of the normalization: `st` holds the filenames kept so far,
innermost first, and a flag that tells whether the pathname built so far
ends in a separator. A dot or an empty filename is removed; a dot-dot removes
the filename before it, is removed itself under a root directory, and is
kept otherwise. -/
def normal_step (rooted : Bool) (st : List String × Bool) (f : String) : List String × Bool :=
  if f = "." ∨ f = "" then (st.1, true)
  else if f = ".." then
    match st.1 with
    | [] => if rooted then ([], true) else ([".."], false)
    | top :: below => if top = ".." then (".." :: top :: below, false) else (below, true)
  else (f :: st.1, false)

/-- `path::lexically_normal`, as libstdc++ computes it from the components:
the root directory is kept as it is, dot filenames go, `name/..` pairs go,
dot-dots under the root go, a separator at the end stays except after a
dot-dot, and an empty result is a dot. -/
def path.lexically_normal (p : path) : path :=
  if p.empty then ⟨"", "", []⟩
  else
    let rooted := p.is_absolute
    let st := p.names.foldl (normal_step rooted) ([], false)
    let kept := st.1.reverse
    let slash := st.2 && kept.getLast? != some ".." && kept != []
    let names := kept ++ (if slash then [""] else [])
    let text := p.root ++ "/".intercalate names
    if text = "" then ⟨".", "", ["."]⟩ else ⟨text, p.root, names⟩

end fs

namespace std

/-- A `std::vector<E>`. -/
abbrev vector (E : Type) := List E

/-- A `std::map<std::string, V>`: its entries, in key order. -/
structure map (V : Type) where
  entries : List (String × V)
  deriving DecidableEq, Repr

/-- Lexicographic comparison of two character sequences, character by
character (`std::string::compare`). -/
def less_chars : List Char → List Char → Bool
  | [], [] => false
  | [], _ :: _ => true
  | _ :: _, [] => false
  | a :: as, b :: bs =>
    if a.toNat < b.toNat then true
    else if a.toNat = b.toNat then less_chars as bs
    else false

/-- The order of the keys of a `std::map<std::string, V>` (`std::less`). -/
def less (a b : String) : Bool :=
  less_chars a.data b.data

/-- The entries after `m[k] = x`: the entry of `k` is overwritten, or a new
one is put at its place in key order. -/
def map.assign_entries {V : Type} (k : String) (x : V) : List (String × V) → List (String × V)
  | [] => [(k, x)]
  | (k', x') :: rest =>
    if less k k' then (k, x) :: (k', x') :: rest
    else if k = k' then (k, x) :: rest
    else (k', x') :: map.assign_entries k x rest

/-- The map after `m[k] = x`. -/
def map.assign {V : Type} (m : map V) (k : String) (x : V) : map V :=
  ⟨map.assign_entries k x m.entries⟩

/-- The value stored under `k` (`map::find`), `none` when there is none. -/
def map.find {V : Type} (m : map V) (k : String) : Option V :=
  (m.entries.find? (fun e => e.1 == k)).map Prod.snd

/-- The keys of the map, in iteration order. -/
def map.keys {V : Type} (m : map V) : List String :=
  m.entries.map Prod.fst

/-- A `std::unordered_set<std::string>`, by its elements. -/
abbrev unordered_set := List String

/-- `unordered_set::insert`: no effect when the element is there already. -/
def unordered_set.insert (s : unordered_set) (k : String) : unordered_set :=
  if k ∈ s then s else k :: s

/-- `unordered_set::contains`. -/
def unordered_set.contains (s : unordered_set) (k : String) : Bool :=
  decide (k ∈ s)

end std

namespace data

/-- What a failed conversion throws: the `std::runtime_error` of the header,
or the `std::out_of_range` of the document model's `table::at`; each with its
`what()` text. -/
inductive Error where
  | runtime_error (what : String)
  | out_of_range (what : String)
  deriving DecidableEq, Repr

/-- The outcome of a call: the lines it wrote to `std::cout`, in order, and
either the returned value or the exception that left it. -/
abbrev Out (α : Type) := List String × Except Error α

end data

namespace toml

/-- The node stored under `key` (`table::at`); the document model throws
`std::out_of_range` with the text `key '<key>' not found in table` when the
table has no such key. -/
def table.at (t : table) (key : String) : Except data.Error node :=
  match t.get key with
  | some v => .ok v
  | none => .error (.out_of_range ("key '" ++ key ++ "' not found in table"))

end toml

namespace data

/-- The `Deserializer<T>` template: `deserialize(v, key)` converts node `v`,
found at diagnostic path `key`, to a `T`. -/
class Deserializer (T : Type) where
  deserialize : toml.node → String → Out T

export Deserializer (deserialize)

abbrev Boolean := Bool
abbrev Integer := Int
abbrev Float := toml.float64
abbrev Time := toml.time
abbrev Date := toml.date
abbrev DateTime := toml.date_time

/-- The exception of `TOML_DESERIALIZE(T)` for a node that is not a `T`;
`name` is the stringized type `#T`. -/
def not_a (key name : String) : Error :=
  .runtime_error ("toml value for '" ++ key ++ "' is not a " ++ name)

/-- `TOML_DESERIALIZE(Boolean)`. -/
instance instBoolean : Deserializer Boolean where
  deserialize v key :=
    match v with
    | .boolean b => ([], .ok b)
    | _ => ([], .error (not_a key "Boolean"))

/-- `TOML_DESERIALIZE(Integer)`. -/
instance instInteger : Deserializer Integer where
  deserialize v key :=
    match v with
    | .integer i => ([], .ok i)
    | _ => ([], .error (not_a key "Integer"))

/-- `TOML_DESERIALIZE(Float)`. -/
instance instFloat : Deserializer Float where
  deserialize v key :=
    match v with
    | .floating_point f => ([], .ok f)
    | _ => ([], .error (not_a key "Float"))

/-- `TOML_DESERIALIZE(Time)`. -/
instance instTime : Deserializer Time where
  deserialize v key :=
    match v with
    | .time t => ([], .ok t)
    | _ => ([], .error (not_a key "Time"))

/-- `TOML_DESERIALIZE(Date)`. -/
instance instDate : Deserializer Date where
  deserialize v key :=
    match v with
    | .date d => ([], .ok d)
    | _ => ([], .error (not_a key "Date"))

/-- `TOML_DESERIALIZE(DateTime)`. -/
instance instDateTime : Deserializer DateTime where
  deserialize v key :=
    match v with
    | .date_time dt => ([], .ok dt)
    | _ => ([], .error (not_a key "DateTime"))

/-- `Deserializer<String>`. -/
instance instString : Deserializer String where
  deserialize v key :=
    match v with
    | .string s => ([], .ok s)
    | _ => ([], .error (.runtime_error ("toml value for '" ++ key ++ "' is not a string")))

/-- `Deserializer<fs::path>`; `BASE_PATH` is the value of the static member
`Deserializer<fs::path>::BASE_PATH` during the call. -/
def instPath (BASE_PATH : fs.path) : Deserializer fs.path where
  deserialize v key :=
    match v with
    | .string s =>
      let path : fs.path := fs.path.of_string s
      let path := if path.is_relative then BASE_PATH.append path else path
      ([], .ok path.lexically_normal)
    | _ => ([], .error (.runtime_error ("toml value for '" ++ key ++ "' is not a string")))

/-- The loop of `Deserializer<std::vector<E>>`: `i` is the loop counter, the
first argument the elements from index `i` on, `result` the vector so far. -/
def vector_loop {E : Type} [Deserializer E] (key : String) :
    List toml.node → Nat → std.vector E → Out (std.vector E)
  | [], _, result => ([], .ok result)
  | e :: rest, i, result =>
    match deserialize e (key ++ "[" ++ toString i ++ "]") with
    | (out, .error err) => (out, .error err)
    | (out, .ok x) =>
      match vector_loop key rest (i + 1) (result ++ [x]) with
      | (out', r) => (out ++ out', r)

/-- `Deserializer<std::vector<E>>`. -/
instance instVector {E : Type} [Deserializer E] : Deserializer (std.vector E) where
  deserialize v key :=
    match v with
    | .array array => vector_loop key array 0 []
    | _ => ([], .error (.runtime_error ("toml value for '" ++ key ++ "' is not an array")))

/-- `_to_key`: `s` itself when no character of it is other than an ASCII
letter, a digit or an underscore, and `s` between double quotes otherwise. -/
def _to_key (s : String) : String :=
  match s.data.find? (fun c => !c.isAlphanum && c != '_') with
  | none => s
  | some _ => "\"" ++ s ++ "\""

/-- The loop of `Deserializer<std::map<std::string, V>>` over the entries of
the table, `result` being the map so far. -/
def map_loop {V : Type} [Deserializer V] (key : String) :
    toml.table → std.map V → Out (std.map V)
  | [], result => ([], .ok result)
  | (k, v) :: rest, result =>
    match deserialize v (key ++ "." ++ _to_key k) with
    | (out, .error err) => (out, .error err)
    | (out, .ok x) =>
      match map_loop key rest (result.assign k x) with
      | (out', r) => (out ++ out', r)

/-- `Deserializer<std::map<std::string, V>>`. -/
instance instMap {V : Type} [Deserializer V] : Deserializer (std.map V) where
  deserialize v key :=
    match v with
    | .table t => map_loop key t ⟨[]⟩
    | _ => ([], .error (.runtime_error ("toml value for '" ++ key ++ "' is not a table")))

abbrev Array (E : Type) := std.vector E
abbrev Table (V : Type) := std.map V
abbrev Optional (T : Type) := Option T

/-- The path under which `require` and `options` convert the member `key` of
a table found at `key_desc` (their local `prefix`). -/
def member_path (key key_desc : String) : String :=
  if key_desc.isEmpty then key else key_desc ++ "." ++ _to_key key

/-- `require(table, key, value, key_desc)`: the outcome carries what is
assigned to `value`. -/
def require {T : Type} [Deserializer T] (table : toml.table) (key : String)
    (key_desc : String) : Out T :=
  let pfx := member_path key key_desc
  match toml.table.at table key with
  | .error err => ([], .error err)
  | .ok v => deserialize v pfx

/-- `options(table, key, value, key_desc)`: the outcome carries what is
assigned to `value`. -/
def options {T : Type} [Deserializer T] (table : toml.table) (key : String)
    (key_desc : String) : Out (Optional T) :=
  let pfx := member_path key key_desc
  if table.contains key then
    match toml.table.at table key with
    | .error err => ([], .error err)
    | .ok v =>
      match deserialize (T := T) v pfx with
      | (out, .error err) => (out, .error err)
      | (out, .ok x) => (out, .ok (some x))
  else ([], .ok none)

/-! ### The composite descriptor `TOML_DESERIALIZE(T, MEMBER)` -/

/-- One statement of a `MEMBER` block: `_TOML_REQUIRE(k, name)` or
`_TOML_OPTIONS(k, name)`. `set` is the assignment to the member `result.k`,
of type `T` (of type `Optional<T>` for `_TOML_OPTIONS`), converted by `inst`. -/
inductive Member (R : Type) : Type 1 where
  | REQUIRE (name : String) (T : Type) (inst : Deserializer T) (set : R → T → R)
  | OPTIONS (name : String) (T : Type) (inst : Deserializer T) (set : R → Optional T → R)

/-- The key a member statement claims (what it inserts into `_had_keys`). -/
def Member.name {R : Type} : Member R → String
  | .REQUIRE name _ _ _ => name
  | .OPTIONS name _ _ _ => name

/-- The call `require(table, name, result.k, key)` or
`options(table, name, result.k, key)` of a member statement. -/
def Member.bind {R : Type} (m : Member R) (table : toml.table) (key : String) (result : R) :
    Out R :=
  match m with
  | .REQUIRE name T inst set =>
    match @require T inst table name key with
    | (out, .error err) => (out, .error err)
    | (out, .ok x) => (out, .ok (set result x))
  | .OPTIONS name T inst set =>
    match @options T inst table name key with
    | (out, .error err) => (out, .error err)
    | (out, .ok x) => (out, .ok (set result x))

/-- The `MEMBER` block: each statement binds its member and then inserts its
key into `_had_keys`; an exception leaves the block. -/
def MEMBER_run {R : Type} (table : toml.table) (key : String) :
    List (Member R) → R → std.unordered_set → Out (R × std.unordered_set)
  | [], result, _had_keys => ([], .ok (result, _had_keys))
  | m :: rest, result, _had_keys =>
    match m.bind table key result with
    | (out, .error err) => (out, .error err)
    | (out, .ok result') =>
      match MEMBER_run table key rest result' (_had_keys.insert m.name) with
      | (out', r) => (out ++ out', r)

/-- The line the composite descriptor writes for the table key `k`. -/
def warning (key k : String) : String :=
  "[TOML] Warning: '" ++ key ++ (if key.isEmpty then "" else ".") ++ _to_key k ++ "' is ignored."

/-- The loop over the table after the `MEMBER` block: one line for each key
that is not in `_had_keys`. -/
def warning_loop (_had_keys : std.unordered_set) (key : String) : toml.table → List String
  | [] => []
  | (k, _) :: rest =>
    if !_had_keys.contains k then warning key k :: warning_loop _had_keys key rest
    else warning_loop _had_keys key rest

/-- The body of `Deserializer<T>::deserialize` that `TOML_DESERIALIZE(T, MEMBER)`
defines; `init` is the default-initialized `T result`. -/
def composite {R : Type} (init : R) (MEMBER : List (Member R)) (v : toml.node) (key : String) :
    Out R :=
  match v with
  | .table table =>
    match MEMBER_run table key MEMBER init [] with
    | (out, .error err) => (out, .error err)
    | (out, .ok (result, _had_keys)) => (out ++ warning_loop _had_keys key table, .ok result)
  | _ => ([], .error (.runtime_error (key ++ " is not a table")))

/-- `TOML_DESERIALIZE(T, MEMBER)`. -/
def TOML_DESERIALIZE (R : Type) (init : R) (MEMBER : List (Member R)) : Deserializer R where
  deserialize := composite init MEMBER

/-- `struct Point` of `tests/toml.cpp`. -/
structure Point where
  x : Integer
  y : Integer
  deriving DecidableEq, Repr

/-- The `MEMBER` block of `Point`: `TOML_REQUIRE(x); TOML_REQUIRE(y);`. -/
def Point.MEMBER : List (Member Point) :=
  [.REQUIRE "x" Integer instInteger (fun result v => { result with x := v }),
   .REQUIRE "y" Integer instInteger (fun result v => { result with y := v })]

/-- `TOML_DESERIALIZE(Point, ...)`. The members of the default-initialized
`Point result` are indeterminate; `0` stands for them (both are assigned
before `result` is returned). -/
instance instPoint : Deserializer Point :=
  TOML_DESERIALIZE Point ⟨0, 0⟩ Point.MEMBER

/-- `struct Path` of `tests/path.cpp`. -/
structure Path where
  path : fs.path
  deriving DecidableEq, Repr

/-- `TOML_DESERIALIZE(Path, ...)`, with the value of `BASE_PATH` during the
call; a default-initialized `fs::path` is empty. -/
def instPathStruct (BASE_PATH : fs.path) : Deserializer Path :=
  TOML_DESERIALIZE Path ⟨⟨"", "", []⟩⟩
    [.REQUIRE "path" fs.path (instPath BASE_PATH) (fun result v => { result with path := v })]

/-! ### The primitive kinds -/

/-- The seven primitive kinds, one for each primitive descriptor. -/
inductive Primitive where
  | Boolean | Integer | Float | String | Date | Time | DateTime
  deriving DecidableEq, Repr

/-- The target type of a primitive kind. -/
def type_of : Primitive → Type
  | .Boolean => Boolean
  | .Integer => Integer
  | .Float => Float
  | .String => String
  | .Date => Date
  | .Time => Time
  | .DateTime => DateTime

/-- The node tag a primitive kind expects. -/
def tag_of : Primitive → toml.node_type
  | .Boolean => .boolean
  | .Integer => .integer
  | .Float => .floating_point
  | .String => .string
  | .Date => .date
  | .Time => .time
  | .DateTime => .date_time

/-- The node of kind `K` that holds `x`. -/
def node_of : (K : Primitive) → type_of K → toml.node
  | .Boolean, x => .boolean x
  | .Integer, x => .integer x
  | .Float, x => .floating_point x
  | .String, x => .string x
  | .Date, x => .date x
  | .Time, x => .time x
  | .DateTime, x => .date_time x

/-- The descriptor of a primitive kind. -/
def inst_of : (K : Primitive) → Deserializer (type_of K)
  | .Boolean => instBoolean
  | .Integer => instInteger
  | .Float => instFloat
  | .String => instString
  | .Date => instDate
  | .Time => instTime
  | .DateTime => instDateTime

/-- The name of the expected kind in the exception text of a primitive
descriptor: the stringized `#T`, and `string` for `Deserializer<String>`. -/
def name_of : Primitive → String
  | .Boolean => "Boolean"
  | .Integer => "Integer"
  | .Float => "Float"
  | .String => "string"
  | .Date => "Date"
  | .Time => "Time"
  | .DateTime => "DateTime"

/-! ### Notions of the specification -/

/-- The in-order, fail-fast traversal that the specification gives for
`Array<E>`: element `i` is handed to the descriptor of `E` with the path
`parent + "[i]"`; the first element that fails ends the traversal with its
failure; otherwise the results are collected in the order of the elements.
The index of the first element of the list is `i`. -/
def array_traversal {E : Type} [Deserializer E] (parent : String) :
    Nat → List toml.node → Out (List E)
  | _, [] => ([], .ok [])
  | i, e :: rest =>
    match deserialize e (parent ++ "[" ++ toString i ++ "]") with
    | (out, .error err) => (out, .error err)
    | (out, .ok x) =>
      match array_traversal parent (i + 1) rest with
      | (out', .error err) => (out ++ out', .error err)
      | (out', .ok xs) => (out ++ out', .ok (x :: xs))

/-- The table `t'` is the table `t` with entries added whose keys are not in
`D`: an entry of `t` is kept, or an entry with a key outside `D` is added. -/
inductive adds_unknown (D : List String) : toml.table → toml.table → Prop where
  | nil : adds_unknown D [] []
  | keep (e : String × toml.node) (t t' : toml.table) :
      adds_unknown D t t' → adds_unknown D (e :: t) (e :: t')
  | add (k : String) (v : toml.node) (t t' : toml.table) :
      k ∉ D → adds_unknown D t t' → adds_unknown D t ((k, v) :: t')

/-- The path `q` is reached from the path `p` by the steps of a descent: an
array index `[i]`, an entry `."key"` of a table-as-map, or a member of a
composite (`member_path`). -/
inductive descends (p : String) : String → Prop where
  | here : descends p p
  | index (q : String) (i : Nat) : descends p q → descends p (q ++ "[" ++ toString i ++ "]")
  | entry (q k : String) : descends p q → descends p (q ++ "." ++ _to_key k)
  | member (q k : String) : descends p q → descends p (member_path k q)

/-- The exception `err` is a kind mismatch reported at the path `q`: one of
the `std::runtime_error` texts of the header, with `q` as its path. -/
inductive reported_at (q : String) : Error → Prop where
  | primitive (K : Primitive) :
      reported_at q (.runtime_error ("toml value for '" ++ q ++ "' is not a " ++ name_of K))
  | array : reported_at q (.runtime_error ("toml value for '" ++ q ++ "' is not an array"))
  | table : reported_at q (.runtime_error ("toml value for '" ++ q ++ "' is not a table"))
  | composite : reported_at q (.runtime_error (q ++ " is not a table"))

/-- Every failure of the descriptor is either the exception of `table::at`
for an absent key, or a kind mismatch reported at a path reached from the
path of the call. -/
def carries_path (T : Type) (inst : Deserializer T) : Prop :=
  ∀ (v : toml.node) (p : String) (out : List String) (err : Error),
    @deserialize T inst v p = (out, .error err) →
    (∃ k, err = .out_of_range ("key '" ++ k ++ "' not found in table"))
      ∨ ∃ q, descends p q ∧ reported_at q err

/-- The descriptor of the member carries the path. -/
def Member.carries_path {R : Type} : Member R → Prop
  | .REQUIRE _ T inst _ => data.carries_path T inst
  | .OPTIONS _ T inst _ => data.carries_path T inst

/-- The call of the descriptor `inst'` on the node `n` with the path `q` is
reached from the call of the descriptor `inst` on the node `v` with the path
`p`: it is that call itself, or the call that `inst` makes for one of the
nodes `v` holds (the element `i` of the array with the path `p[i]`, the entry
`k` of the table with the path `p."k"`, the node under the key of a member
with the member path), or a call reached from such a call. -/
inductive reaches : (T : Type) → Deserializer T → toml.node → String →
    (T' : Type) → Deserializer T' → toml.node → String → Prop where
  | here (T : Type) (inst : Deserializer T) (v : toml.node) (p : String) :
      reaches T inst v p T inst v p
  | element (E : Type) (inst : Deserializer E) (elems : List toml.node) (i : Nat)
      (e : toml.node) (p : String) (T' : Type) (inst' : Deserializer T') (n : toml.node)
      (q : String) :
      elems[i]? = some e →
      reaches E inst e (p ++ "[" ++ toString i ++ "]") T' inst' n q →
      reaches (std.vector E) (@instVector E inst) (.array elems) p T' inst' n q
  | entry (V : Type) (inst : Deserializer V) (t : toml.table) (k : String) (v : toml.node)
      (p : String) (T' : Type) (inst' : Deserializer T') (n : toml.node) (q : String) :
      (k, v) ∈ t →
      reaches V inst v (p ++ "." ++ _to_key k) T' inst' n q →
      reaches (std.map V) (@instMap V inst) (.table t) p T' inst' n q
  | required (R : Type) (init : R) (MEMBER : List (Member R)) (name : String) (T : Type)
      (inst : Deserializer T) (set : R → T → R) (t : toml.table) (v : toml.node)
      (p : String) (T' : Type) (inst' : Deserializer T') (n : toml.node) (q : String) :
      Member.REQUIRE name T inst set ∈ MEMBER → t.get name = some v →
      reaches T inst v (member_path name p) T' inst' n q →
      reaches R (TOML_DESERIALIZE R init MEMBER) (.table t) p T' inst' n q
  | optional (R : Type) (init : R) (MEMBER : List (Member R)) (name : String) (T : Type)
      (inst : Deserializer T) (set : R → Optional T → R) (t : toml.table) (v : toml.node)
      (p : String) (T' : Type) (inst' : Deserializer T') (n : toml.node) (q : String) :
      Member.OPTIONS name T inst set ∈ MEMBER → t.get name = some v →
      reaches T inst v (member_path name p) T' inst' n q →
      reaches R (TOML_DESERIALIZE R init MEMBER) (.table t) p T' inst' n q

/-- The descriptor `inst`, called on the node `n` with the path `q`, fails by
itself with the exception `err`: `n` is not of the kind the descriptor
expects, and the text of `err` holds the path `q` and the expected kind; or
`n` is a table without the key of a required member of the composite, and
`err` is the exception of `table::at`, which holds the key and no path. -/
inductive fails_at : (T : Type) → Deserializer T → toml.node → String → Error → Prop where
  | primitive (K : Primitive) (n : toml.node) (q : String) : n.type ≠ tag_of K →
      fails_at (type_of K) (inst_of K) n q
        (.runtime_error ("toml value for '" ++ q ++ "' is not a " ++ name_of K))
  | path (BASE_PATH : fs.path) (n : toml.node) (q : String) : n.type ≠ .string →
      fails_at fs.path (instPath BASE_PATH) n q
        (.runtime_error ("toml value for '" ++ q ++ "' is not a string"))
  | array (E : Type) (inst : Deserializer E) (n : toml.node) (q : String) :
      n.type ≠ .array →
      fails_at (std.vector E) (@instVector E inst) n q
        (.runtime_error ("toml value for '" ++ q ++ "' is not an array"))
  | table (V : Type) (inst : Deserializer V) (n : toml.node) (q : String) :
      n.type ≠ .table →
      fails_at (std.map V) (@instMap V inst) n q
        (.runtime_error ("toml value for '" ++ q ++ "' is not a table"))
  | composite (R : Type) (init : R) (MEMBER : List (Member R)) (n : toml.node) (q : String) :
      n.type ≠ .table →
      fails_at R (TOML_DESERIALIZE R init MEMBER) n q (.runtime_error (q ++ " is not a table"))
  | missing (R : Type) (init : R) (MEMBER : List (Member R)) (name : String) (T : Type)
      (inst : Deserializer T) (set : R → T → R) (t : toml.table) (q : String) :
      Member.REQUIRE name T inst set ∈ MEMBER → t.get name = none →
      fails_at R (TOML_DESERIALIZE R init MEMBER) (.table t) q
        (.out_of_range ("key '" ++ name ++ "' not found in table"))

/-- Every failure of the descriptor is the failure, by itself, of a
descriptor call reached from the call that fails: the exception is raised at
the node that fails, with the path of the descent to that node. -/
def exact_path (T : Type) (inst : Deserializer T) : Prop :=
  ∀ (v : toml.node) (p : String) (out : List String) (err : Error),
    @deserialize T inst v p = (out, .error err) →
    ∃ (T' : Type) (inst' : Deserializer T') (n : toml.node) (q : String),
      reaches T inst v p T' inst' n q ∧ fails_at T' inst' n q err

/-- The descriptor of the member has the exact-path property. -/
def Member.exact_path {R : Type} : Member R → Prop
  | .REQUIRE _ T inst _ => data.exact_path T inst
  | .OPTIONS _ T inst _ => data.exact_path T inst

/-- The rendering of a descent through the table keys `ks` from the path `p`:
each step appends `"." + _to_key(key)`. -/
def render_keys (p : String) (ks : List String) : String :=
  ks.foldl (fun q k => q ++ "." ++ _to_key k) p

/-- The characters that `render_keys` appends for the keys `ks`. -/
def render_chars : List String → List Char
  | [] => []
  | k :: ks => '.' :: ((_to_key k).data ++ render_chars ks)

/-- What a member statement does to `result` apart from `result` itself: the
lines written, and the assignment made or the exception thrown. -/
def Member.convert {R : Type} (m : Member R) (table : toml.table) (key : String) :
    Out (R → R) :=
  match m with
  | .REQUIRE name T inst set =>
    match @require T inst table name key with
    | (out, .error err) => (out, .error err)
    | (out, .ok x) => (out, .ok (fun result => set result x))
  | .OPTIONS name T inst set =>
    match @options T inst table name key with
    | (out, .error err) => (out, .error err)
    | (out, .ok x) => (out, .ok (fun result => set result x))

/-- The assignments of two member statements commute: they assign different
members of `result`. -/
def Member.commutes {R : Type} : Member R → Member R → Prop
  | .REQUIRE _ _ _ set, .REQUIRE _ _ _ set' => ∀ r x y, set (set' r y) x = set' (set r x) y
  | .REQUIRE _ _ _ set, .OPTIONS _ _ _ set' => ∀ r x y, set (set' r y) x = set' (set r x) y
  | .OPTIONS _ _ _ set, .REQUIRE _ _ _ set' => ∀ r x y, set (set' r y) x = set' (set r x) y
  | .OPTIONS _ _ _ set, .OPTIONS _ _ _ set' => ∀ r x y, set (set' r y) x = set' (set r x) y

/-! ### Sample composites and a probe -/

/-- A composite `Server` with one required member `port : Integer`. -/
structure Server where
  port : Integer
  deriving DecidableEq, Repr

/-- `TOML_DESERIALIZE(Server, { TOML_REQUIRE(port); })`. -/
instance instServer : Deserializer Server :=
  TOML_DESERIALIZE Server ⟨0⟩
    [.REQUIRE "port" Integer instInteger (fun result v => { result with port := v })]

/-- A composite `Config` with one required member `servers : Array<Server>`. -/
structure Config where
  servers : Array Server
  deriving DecidableEq, Repr

/-- `TOML_DESERIALIZE(Config, { TOML_REQUIRE(servers); })`. -/
instance instConfig : Deserializer Config :=
  TOML_DESERIALIZE Config ⟨[]⟩
    [.REQUIRE "servers" (Array Server) instVector
      (fun result v => { result with servers := v })]

/-- A composite `Shape` with a nested composite member `origin : Point`
followed by a member `sides : Integer`. -/
structure Shape where
  origin : Point
  sides : Integer
  deriving DecidableEq, Repr

/-- `TOML_DESERIALIZE(Shape, { TOML_REQUIRE(origin); TOML_REQUIRE(sides); })`. -/
instance instShape : Deserializer Shape :=
  TOML_DESERIALIZE Shape ⟨⟨0, 0⟩, 0⟩
    [.REQUIRE "origin" Point instPoint (fun result v => { result with origin := v }),
     .REQUIRE "sides" Integer instInteger (fun result v => { result with sides := v })]

/-- The `MEMBER` block of `Shape`: `TOML_REQUIRE(origin); TOML_REQUIRE(sides);`. -/
def Shape.MEMBER : List (Member Shape) :=
  [.REQUIRE "origin" Point instPoint (fun result v => { result with origin := v }),
   .REQUIRE "sides" Integer instInteger (fun result v => { result with sides := v })]

/-- A composite `Polygon` with one required member `points : Array<Point>`. -/
structure Polygon where
  points : Array Point
  deriving DecidableEq, Repr

/-- The `MEMBER` block of `Polygon`: `TOML_REQUIRE(points);`. -/
def Polygon.MEMBER : List (Member Polygon) :=
  [.REQUIRE "points" (Array Point) instVector (fun result v => { result with points := v })]

/-- `TOML_DESERIALIZE(Polygon, { TOML_REQUIRE(points); })`. -/
instance instPolygon : Deserializer Polygon :=
  TOML_DESERIALIZE Polygon ⟨[]⟩ Polygon.MEMBER

/-- The path a descriptor was called with. -/
structure Called where
  path : String
  deriving DecidableEq, Repr

/-- A descriptor that accepts every node and returns the path it is called
with: it shows which path a descriptor hands to the descriptor it delegates
to. -/
instance instCalled : Deserializer Called where
  deserialize _ key := ([], .ok ⟨key⟩)

end data

/-! ## Lemmas on the document model and the descriptors -/

namespace data

theorem table_at_of_get (t : toml.table) (k : String) (v : toml.node)
    (h : t.get k = some v) : toml.table.at t k = .ok v := by
  simp [toml.table.at, h]

theorem table_at_of_not_contains (t : toml.table) (k : String)
    (h : t.contains k = false) :
    toml.table.at t k = .error (.out_of_range ("key '" ++ k ++ "' not found in table")) := by
  have hn : t.get k = none := by
    cases hg : t.get k with
    | none => rfl
    | some v => simp [toml.table.contains, hg] at h
  simp [toml.table.at, hn]

theorem contains_of_get (t : toml.table) (k : String) (v : toml.node)
    (h : t.get k = some v) : t.contains k = true := by
  simp [toml.table.contains, h]

theorem get_of_contains (t : toml.table) (k : String) (h : t.contains k = true) :
    ∃ v, t.get k = some v := by
  cases hg : t.get k with
  | none => simp [toml.table.contains, hg] at h
  | some v => exact ⟨v, rfl⟩

theorem not_a_string (p : String) :
    Error.runtime_error ("toml value for '" ++ p ++ "' is not a string")
      = not_a p (name_of .String) := by
  have h : "' is not a string" = "' is not a " ++ "string" := by decide
  simp only [not_a, name_of]
  rw [h, String.append_assoc, String.append_assoc, String.append_assoc]

/-- A primitive descriptor refuses every node of another kind, with the
text `toml value for '<path>' is not a <kind>`. -/
theorem primitive_mismatch (K : Primitive) (v : toml.node) (p : String)
    (h : v.type ≠ tag_of K) :
    @deserialize (type_of K) (inst_of K) v p = ([], .error (not_a p (name_of K))) := by
  cases K <;> cases v <;>
    first
      | exact absurd rfl h
      | rfl
      | exact congrArg (fun e => (([] : List String), (Except.error e : Except Error String)))
          (not_a_string p)

/-- A primitive descriptor returns the value of a node of its kind. -/
theorem primitive_accepts (K : Primitive) (x : type_of K) (p : String) :
    @deserialize (type_of K) (inst_of K) (node_of K x) p = ([], .ok x) := by
  cases K <;> rfl

theorem path_mismatch (BASE_PATH : fs.path) (v : toml.node) (p : String)
    (h : v.type ≠ .string) :
    @deserialize fs.path (instPath BASE_PATH) v p
      = ([], .error (.runtime_error ("toml value for '" ++ p ++ "' is not a string"))) := by
  cases v <;> first | exact absurd rfl h | rfl

theorem vector_mismatch (E : Type) [Deserializer E] (v : toml.node) (p : String)
    (h : v.type ≠ .array) :
    deserialize (T := std.vector E) v p
      = ([], .error (.runtime_error ("toml value for '" ++ p ++ "' is not an array"))) := by
  cases v <;> first | exact absurd rfl h | rfl

theorem map_mismatch (V : Type) [Deserializer V] (v : toml.node) (p : String)
    (h : v.type ≠ .table) :
    deserialize (T := std.map V) v p
      = ([], .error (.runtime_error ("toml value for '" ++ p ++ "' is not a table"))) := by
  cases v <;> first | exact absurd rfl h | rfl

theorem composite_mismatch {R : Type} (init : R) (MEMBER : List (Member R)) (v : toml.node)
    (p : String) (h : v.type ≠ .table) :
    composite init MEMBER v p = ([], .error (.runtime_error (p ++ " is not a table"))) := by
  cases v <;> first | exact absurd rfl h | rfl

/-- With the key present, `require` is the member's descriptor on the node
under the key, at the member path. -/
theorem require_of_get {T : Type} [Deserializer T] (t : toml.table) (k p : String)
    (v : toml.node) (h : t.get k = some v) :
    require (T := T) t k p = deserialize v (member_path k p) := by
  simp [require, table_at_of_get t k v h]

/-- With the key absent, `require` ends with the exception of `table::at`. -/
theorem require_of_not_contains {T : Type} [Deserializer T] (t : toml.table) (k p : String)
    (h : t.contains k = false) :
    require (T := T) t k p
      = ([], .error (.out_of_range ("key '" ++ k ++ "' not found in table"))) := by
  simp [require, table_at_of_not_contains t k h]

/-- With the key absent, `options` gives "no value". -/
theorem options_of_not_contains {T : Type} [Deserializer T] (t : toml.table) (k p : String)
    (h : t.contains k = false) : options (T := T) t k p = ([], .ok none) := by
  simp [options, h]

/-- With the key present, `options` is the member's descriptor on the node
under the key, at the member path, its value made present. -/
theorem options_of_get {T : Type} [Deserializer T] (t : toml.table) (k p : String)
    (v : toml.node) (h : t.get k = some v) :
    options (T := T) t k p
      = ((deserialize (T := T) v (member_path k p)).1,
         (deserialize (T := T) v (member_path k p)).2.map some) := by
  simp only [options, contains_of_get t k v h, table_at_of_get t k v h, if_true]
  rcases deserialize (T := T) v (member_path k p) with ⟨out, _ | _⟩ <;> rfl

theorem member_path_root (k : String) : member_path k "" = k := by
  simp [member_path, String.isEmpty]

theorem member_path_nested (k p : String) (h : p ≠ "") :
    member_path k p = p ++ "." ++ _to_key k := by
  have : p.isEmpty = false := by
    cases hp : p.isEmpty with
    | false => rfl
    | true => exact absurd ((String.isEmpty_iff p).mp hp) h
  simp [member_path, this]

end data

/-! ## The primitive descriptors and the member bindings -/

namespace data

/-- C1: for every primitive kind `K`, every value `x` of kind `K` and every
path `p`, the descriptor of `K` applied to the node of kind `K` that holds
`x` succeeds, writes nothing, and returns exactly `x`. -/
theorem C1_primitive_roundtrip (K : Primitive) (x : type_of K) (p : String) :
    @deserialize (type_of K) (inst_of K) (node_of K x) p = ([], .ok x) :=
  primitive_accepts K x p

/-- C2, as stated, fails: the failure of a descriptor does not carry the
actual kind of the node. A String node and a Float node decoded as Integer at
path `p` end with the same exception, so nothing read off the exception can
be the actual kind of both. -/
theorem C2_actual_kind_not_carried :
    ¬ ∃ actual : Error → toml.node_type,
      (∀ err, (deserialize (T := Integer) (.string "s") "p").2 = .error err
          → actual err = (toml.node.string "s").type) ∧
      (∀ err, (deserialize (T := Integer) (.floating_point ⟨0⟩) "p").2 = .error err
          → actual err = (toml.node.floating_point ⟨0⟩).type) := by
  rintro ⟨actual, h1, h2⟩
  have e1 := h1 (not_a "p" "Integer") rfl
  have e2 := h2 (not_a "p" "Integer") rfl
  rw [e1] at e2
  exact absurd e2 (by decide)

/-- C2, amended: a node whose kind is not the one a descriptor expects is
never coerced; the descriptor fails, writes nothing, and its exception is a
`std::runtime_error` whose text holds the call-site path `p` and the expected
kind (not the actual one): `toml value for '<p>' is not a <K2>` for a
primitive descriptor, `... is not a string` for the filesystem-path
descriptor, `... is not an array` for `Array<E>`, `... is not a table` for
`Table<V>`, and `<p> is not a table` for a composite. -/
theorem C2_kind_mismatch (v : toml.node) (p : String) :
    (∀ K : Primitive, v.type ≠ tag_of K →
      @deserialize (type_of K) (inst_of K) v p
        = ([], .error (.runtime_error ("toml value for '" ++ p ++ "' is not a " ++ name_of K))))
    ∧ (∀ BASE_PATH : fs.path, v.type ≠ .string →
      @deserialize fs.path (instPath BASE_PATH) v p
        = ([], .error (.runtime_error ("toml value for '" ++ p ++ "' is not a string"))))
    ∧ (∀ (E : Type) [Deserializer E], v.type ≠ .array →
      deserialize (T := Array E) v p
        = ([], .error (.runtime_error ("toml value for '" ++ p ++ "' is not an array"))))
    ∧ (∀ (V : Type) [Deserializer V], v.type ≠ .table →
      deserialize (T := Table V) v p
        = ([], .error (.runtime_error ("toml value for '" ++ p ++ "' is not a table"))))
    ∧ (∀ (R : Type) (init : R) (MEMBER : List (Member R)), v.type ≠ .table →
      @deserialize R (TOML_DESERIALIZE R init MEMBER) v p
        = ([], .error (.runtime_error (p ++ " is not a table")))) :=
  ⟨fun K h => primitive_mismatch K v p h,
   fun B h => path_mismatch B v p h,
   fun E _ h => vector_mismatch E v p h,
   fun V _ h => map_mismatch V v p h,
   fun _ init MEMBER h => composite_mismatch init MEMBER v p h⟩

/-- C2 at an Integer node decoded as Float and a String node decoded as
Integer, as an array, as a table-as-map and as `Point`. -/
theorem C2_kind_mismatch_witness :
    @deserialize Float instFloat (.integer 1) "a.b"
        = ([], .error (.runtime_error "toml value for 'a.b' is not a Float"))
    ∧ @deserialize Integer instInteger (.string "7") "n"
        = ([], .error (.runtime_error "toml value for 'n' is not a Integer"))
    ∧ deserialize (T := Array Integer) (.string "7") "n"
        = ([], .error (.runtime_error "toml value for 'n' is not an array"))
    ∧ deserialize (T := Table Integer) (.string "7") "n"
        = ([], .error (.runtime_error "toml value for 'n' is not a table"))
    ∧ deserialize (T := Point) (.string "7") "n"
        = ([], .error (.runtime_error "n is not a table")) :=
  ⟨(C2_kind_mismatch (.integer 1) "a.b").1 .Float (by decide),
   (C2_kind_mismatch (.string "7") "n").1 .Integer (by decide),
   (C2_kind_mismatch (.string "7") "n").2.2.1 Integer (by decide),
   (C2_kind_mismatch (.string "7") "n").2.2.2.1 Integer (by decide),
   (C2_kind_mismatch (.string "7") "n").2.2.2.2 Point ⟨0, 0⟩ Point.MEMBER (by decide)⟩

/-- C3, as stated, fails: the exception of a required binding whose key is
absent does not record the path. For the empty table and the key `x`, the
binding ends with the same exception at path `a` and at path `b`, so no path
read off the exception can be `a.x` in the first call and `b.x` in the
second. -/
theorem C3_path_not_recorded :
    ¬ ∃ path_of : Error → String,
      (∀ err, (require (T := Integer) [] "x" "a").2 = .error err
          → path_of err = "a" ++ "." ++ "x") ∧
      (∀ err, (require (T := Integer) [] "x" "b").2 = .error err
          → path_of err = "b" ++ "." ++ "x") := by
  rintro ⟨path_of, h1, h2⟩
  have e1 := h1 (.out_of_range "key 'x' not found in table") rfl
  have e2 := h2 (.out_of_range "key 'x' not found in table") rfl
  rw [e1] at e2
  exact absurd e2 (by decide)

/-- C3, amended: for every table `t`, key `k` not present in `t` and path
`p`, the required binding fails, writes nothing, and ends with the exception
of the document model's `table::at`, a `std::out_of_range` whose text
`key '<k>' not found in table` names the key alone and is the same for
every path `p`. -/
theorem C3_require_missing_key (T : Type) (inst : Deserializer T) (t : toml.table)
    (k p : String) (h : t.contains k = false) :
    require (T := T) t k p
      = ([], .error (.out_of_range ("key '" ++ k ++ "' not found in table"))) :=
  require_of_not_contains t k p h

/-- C3 at the table `y = 2`, the key `x` and the path `srv`. -/
theorem C3_require_missing_key_witness :
    toml.table.contains [("y", .integer 2)] "x" = false
    ∧ require (T := Integer) [("y", .integer 2)] "x" "srv"
        = ([], .error (.out_of_range "key 'x' not found in table")) :=
  ⟨by decide, C3_require_missing_key Integer instInteger [("y", .integer 2)] "x" "srv" (by decide)⟩

/-- C4, as stated, fails: under a non-empty path the member path is not
`p + "." + k` when the key needs quoting. The table `"b c" = "s"` bound as a
required Integer member `b c` at path `a` fails at the path `a."b c"`, which
is not `a.b c`. -/
theorem C4_member_path_quoted :
    require (T := Integer) [("b c", .string "s")] "b c" "a"
        = ([], .error (.runtime_error "toml value for 'a.\"b c\"' is not a Integer"))
    ∧ member_path "b c" "a" ≠ "a" ++ "." ++ "b c" :=
  ⟨rfl, by decide⟩

/-- C4, amended: for every table `t` that holds under key `k` a node whose
kind is not the one the member's descriptor expects, the required binding
fails with the descriptor's kind-mismatch exception (a `std::runtime_error`,
never the `std::out_of_range` of an absent key), raised at the member path:
`p + "." + _to_key(k)` (the key quoted if needed) for a non-empty `p`, and
`k` alone at the root; the text holds this path and the expected kind, not
the actual one. The document `x = "s"`, `y = 2` decoded as `Point` fails with
`toml value for 'x' is not a Integer`. -/
theorem C4_require_wrong_kind :
    (∀ (T : Type) [Deserializer T] (t : toml.table) (k p : String) (v : toml.node),
      t.get k = some v → require (T := T) t k p = deserialize v (member_path k p))
    ∧ (∀ (K : Primitive) (t : toml.table) (k p : String) (v : toml.node),
      t.get k = some v → v.type ≠ tag_of K →
      @require (type_of K) (inst_of K) t k p
        = ([], .error (.runtime_error
            ("toml value for '" ++ member_path k p ++ "' is not a " ++ name_of K))))
    ∧ (∀ k : String, member_path k "" = k)
    ∧ (∀ k p : String, p ≠ "" → member_path k p = p ++ "." ++ _to_key k)
    ∧ deserialize (T := Point) (.table [("x", .string "s"), ("y", .integer 2)]) ""
        = ([], .error (.runtime_error "toml value for 'x' is not a Integer")) := by
  refine ⟨fun T _ t k p v h => require_of_get t k p v h, ?_, member_path_root,
    member_path_nested, rfl⟩
  intro K t k p v h hk
  rw [@require_of_get (type_of K) (inst_of K) t k p v h]
  exact primitive_mismatch K v (member_path k p) hk

/-- C4 at the table `port = "80"`, the member `port : Integer` and the path
`server`. -/
theorem C4_require_wrong_kind_witness :
    @require Integer instInteger [("port", .string "80")] "port" "server"
        = ([], .error (.runtime_error "toml value for 'server.port' is not a Integer")) :=
  C4_require_wrong_kind.2.1 .Integer [("port", .string "80")] "port" "server" (.string "80")
    rfl (by decide)

/-- C5: for every table `t`, key `k`, path `p` and member type `T`, the
optional binding succeeds with "no value" and writes nothing when `t` lacks
`k`; when `t` contains `k` it is the required binding with a present value:
the same lines, the same exception on failure, and `some x` where `require`
gives `x`; so a node of the wrong kind for a primitive member ends with the
kind-mismatch exception at the member path, not with "no value". -/
theorem C5_options :
    (∀ (T : Type) [Deserializer T] (t : toml.table) (k p : String),
      t.contains k = false → options (T := T) t k p = ([], .ok none))
    ∧ (∀ (T : Type) [Deserializer T] (t : toml.table) (k p : String),
      t.contains k = true →
      options (T := T) t k p
        = ((require (T := T) t k p).1, (require (T := T) t k p).2.map some))
    ∧ (∀ (T : Type) [Deserializer T] (t : toml.table) (k p : String) (v : toml.node),
      t.get k = some v →
      options (T := T) t k p
        = ((deserialize (T := T) v (member_path k p)).1,
           (deserialize (T := T) v (member_path k p)).2.map some))
    ∧ (∀ (K : Primitive) (t : toml.table) (k p : String) (v : toml.node),
      t.get k = some v → v.type ≠ tag_of K →
      @options (type_of K) (inst_of K) t k p
        = ([], .error (.runtime_error
            ("toml value for '" ++ member_path k p ++ "' is not a " ++ name_of K)))) := by
  refine ⟨fun T _ t k p h => options_of_not_contains t k p h, ?_,
    fun T _ t k p v h => options_of_get t k p v h, ?_⟩
  · intro T _ t k p h
    obtain ⟨v, hv⟩ := get_of_contains t k h
    rw [options_of_get t k p v hv, require_of_get t k p v hv]
  · intro K t k p v h hk
    rw [@options_of_get (type_of K) (inst_of K) t k p v h,
      primitive_mismatch K v (member_path k p) hk]
    rfl

/-- C5 at the table `y = 2`: the optional Integer member `x` is absent, the
optional Integer member `y` is `2`, and the optional String member `y` has a
node of the wrong kind. -/
theorem C5_options_witness :
    options (T := Integer) [("y", .integer 2)] "x" "p" = ([], .ok none)
    ∧ options (T := Integer) [("y", .integer 2)] "y" "p"
        = ((require (T := Integer) [("y", .integer 2)] "y" "p").1,
           (require (T := Integer) [("y", .integer 2)] "y" "p").2.map some)
    ∧ @options String instString [("y", .integer 2)] "y" "p"
        = ([], .error (.runtime_error "toml value for 'p.y' is not a string")) :=
  ⟨C5_options.1 Integer [("y", .integer 2)] "x" "p" (by decide),
   C5_options.2.1 Integer [("y", .integer 2)] "y" "p" (by decide),
   C5_options.2.2.2 .String [("y", .integer 2)] "y" "p" (.integer 2) rfl (by decide)⟩

end data

/-! ## The composite descriptor -/

namespace data

theorem MEMBER_run_cons {R : Type} (t : toml.table) (key : String) (m : Member R)
    (rest : List (Member R)) (r : R) (had : std.unordered_set) :
    MEMBER_run t key (m :: rest) r had =
      match m.bind t key r with
      | (out, .error err) => (out, .error err)
      | (out, .ok r') =>
        (out ++ (MEMBER_run t key rest r' (had.insert m.name)).1,
         (MEMBER_run t key rest r' (had.insert m.name)).2) := by
  simp only [MEMBER_run]

/-- A `MEMBER` block that ends normally has bound its first member and then
run the rest of the block. -/
theorem MEMBER_run_cons_ok {R : Type} {t : toml.table} {key : String} {m : Member R}
    {rest : List (Member R)} {r : R} {had : std.unordered_set} {out : List String}
    {res : R × std.unordered_set}
    (h : MEMBER_run t key (m :: rest) r had = (out, .ok res)) :
    ∃ out1 r1 out2, m.bind t key r = (out1, .ok r1)
      ∧ MEMBER_run t key rest r1 (had.insert m.name) = (out2, .ok res)
      ∧ out = out1 ++ out2 := by
  rw [MEMBER_run_cons] at h
  rcases hb : m.bind t key r with ⟨out1, err | r1⟩
  · rw [hb] at h; simp at h
  · rw [hb] at h
    simp only [Prod.mk.injEq] at h
    exact ⟨out1, r1, (MEMBER_run t key rest r1 (had.insert m.name)).1, rfl,
      Prod.ext rfl h.2, h.1.symm⟩

theorem MEMBER_run_cons_of_ok {R : Type} {t : toml.table} {key : String} {m : Member R}
    {rest : List (Member R)} {r r1 : R} {had : std.unordered_set} {out1 : List String}
    (hb : m.bind t key r = (out1, .ok r1)) :
    MEMBER_run t key (m :: rest) r had =
      (out1 ++ (MEMBER_run t key rest r1 (had.insert m.name)).1,
       (MEMBER_run t key rest r1 (had.insert m.name)).2) := by
  rw [MEMBER_run_cons, hb]

/-- A composite descriptor that returns has run its `MEMBER` block to the
end and then written its warnings. -/
theorem composite_ok_inv {R : Type} {init : R} {MEMBER : List (Member R)} {t : toml.table}
    {key : String} {out : List String} {result : R}
    (h : composite init MEMBER (.table t) key = (out, .ok result)) :
    ∃ out0 had, MEMBER_run t key MEMBER init [] = (out0, .ok (result, had))
      ∧ out = out0 ++ warning_loop had key t := by
  simp only [composite] at h
  rcases hr : MEMBER_run t key MEMBER init [] with ⟨out0, err | ⟨r1, had⟩⟩
  · rw [hr] at h; simp at h
  · rw [hr] at h
    simp only [Prod.mk.injEq, Except.ok.injEq] at h
    exact ⟨out0, had, by rw [h.2], h.1.symm⟩

theorem composite_of_MEMBER_run_ok {R : Type} {init : R} {MEMBER : List (Member R)}
    {t : toml.table} {key : String} {out0 : List String} {result : R}
    {had : std.unordered_set}
    (h : MEMBER_run t key MEMBER init [] = (out0, .ok (result, had))) :
    composite init MEMBER (.table t) key = (out0 ++ warning_loop had key t, .ok result) := by
  simp only [composite, h]

/-- The lines of a composite that fails on a table are the lines of its
`MEMBER` block. -/
theorem composite_error_inv {R : Type} {init : R} {MEMBER : List (Member R)} {t : toml.table}
    {key : String} {out : List String} {err : Error}
    (h : composite init MEMBER (.table t) key = (out, .error err)) :
    MEMBER_run t key MEMBER init [] = (out, .error err) := by
  simp only [composite] at h
  rcases hr : MEMBER_run t key MEMBER init [] with ⟨o, e | ⟨r, had⟩⟩
  · rw [hr] at h; simpa using h
  · rw [hr] at h; simp at h

/-- A node whose tag is that of a primitive kind holds a value of the kind. -/
theorem node_of_tag (K : Primitive) (v : toml.node) (h : v.type = tag_of K) :
    ∃ x : type_of K, v = node_of K x := by
  cases K <;> cases v <;> first | exact ⟨_, rfl⟩ | (simp [toml.node.type, tag_of] at h)

end data

/-! ## The collection descriptors -/

namespace data

/-- The loop of the array descriptor is the traversal of the specification,
its results appended to the vector built so far. -/
theorem vector_loop_eq_traversal {E : Type} [Deserializer E] (key : String) :
    ∀ (elems : List toml.node) (i : Nat) (result : std.vector E),
      vector_loop key elems i result
        = ((array_traversal (E := E) key i elems).1,
           (array_traversal (E := E) key i elems).2.map (fun xs => result ++ xs)) := by
  intro elems
  induction elems with
  | nil => intro i result; simp [vector_loop, array_traversal, Except.map]
  | cons e rest ih =>
    intro i result
    simp only [vector_loop, array_traversal]
    rcases deserialize (T := E) e (key ++ "[" ++ toString i ++ "]") with ⟨out, err | x⟩
    · rfl
    · simp only [ih]
      rcases array_traversal (E := E) key (i + 1) rest with ⟨out', err | xs⟩
      · rfl
      · simp [Except.map]

/-- A traversal that succeeds returns one value for each element, the value
of the element's descriptor at the element's path. -/
theorem array_traversal_ok {E : Type} [Deserializer E] (p : String) :
    ∀ (elems : List toml.node) (i0 : Nat) (out : List String) (xs : List E),
      array_traversal (E := E) p i0 elems = (out, .ok xs) →
      xs.length = elems.length ∧
      ∀ (j : Nat) (e : toml.node), elems[j]? = some e →
        ∃ x, xs[j]? = some x
          ∧ (deserialize (T := E) e (p ++ "[" ++ toString (i0 + j) ++ "]")).2 = .ok x := by
  intro elems
  induction elems with
  | nil =>
    intro i0 out xs h
    simp only [array_traversal, Prod.mk.injEq, Except.ok.injEq] at h
    refine ⟨by rw [← h.2]; rfl, ?_⟩
    intro j e hj
    simp at hj
  | cons e0 rest ih =>
    intro i0 out xs h
    simp only [array_traversal] at h
    rcases hd : deserialize (T := E) e0 (p ++ "[" ++ toString i0 ++ "]") with ⟨o1, err | x0⟩
    · rw [hd] at h; simp at h
    · rw [hd] at h
      rcases ht : array_traversal (E := E) p (i0 + 1) rest with ⟨o2, err | xs'⟩
      · rw [ht] at h; simp at h
      · rw [ht] at h
        simp only [Prod.mk.injEq, Except.ok.injEq] at h
        obtain ⟨hlen, hel⟩ := ih (i0 + 1) o2 xs' ht
        rw [← h.2]
        refine ⟨by simp [hlen], ?_⟩
        intro j e hj
        cases j with
        | zero =>
          simp only [List.getElem?_cons_zero, Option.some.injEq] at hj
          subst hj
          exact ⟨x0, by simp, by rw [Nat.add_zero, hd]⟩
        | succ j' =>
          simp only [List.getElem?_cons_succ] at hj
          obtain ⟨x, hx, hdx⟩ := hel j' e hj
          refine ⟨x, by simpa using hx, ?_⟩
          have hidx : i0 + (j' + 1) = i0 + 1 + j' := by omega
          rw [hidx]; exact hdx

/-- A traversal all of whose elements decode succeeds. -/
theorem array_traversal_all {E : Type} [Deserializer E] (p : String) :
    ∀ (elems : List toml.node) (i0 : Nat),
      (∀ (j : Nat) (e : toml.node), elems[j]? = some e →
        ∃ x, (deserialize (T := E) e (p ++ "[" ++ toString (i0 + j) ++ "]")).2 = .ok x) →
      ∃ out xs, array_traversal (E := E) p i0 elems = (out, .ok xs) := by
  intro elems
  induction elems with
  | nil => intro i0 _; exact ⟨[], [], rfl⟩
  | cons e0 rest ih =>
    intro i0 h
    obtain ⟨x0, hx0⟩ := h 0 e0 (by simp)
    rw [Nat.add_zero] at hx0
    obtain ⟨o2, xs, ht⟩ := ih (i0 + 1) (by
      intro j e hj
      have hidx : i0 + 1 + j = i0 + (j + 1) := by omega
      rw [hidx]
      exact h (j + 1) e (by simpa using hj))
    rcases hd : deserialize (T := E) e0 (p ++ "[" ++ toString i0 ++ "]") with ⟨o1, err | x⟩
    · rw [hd] at hx0; simp at hx0
    · exact ⟨o1 ++ o2, x :: xs, by simp only [array_traversal, hd, ht]⟩

/-- A traversal ends with the failure of the first element that fails. -/
theorem array_traversal_fail {E : Type} [Deserializer E] (p : String) :
    ∀ (elems : List toml.node) (i0 j : Nat) (e : toml.node) (err : Error),
      elems[j]? = some e →
      (deserialize (T := E) e (p ++ "[" ++ toString (i0 + j) ++ "]")).2 = .error err →
      (∀ (j' : Nat) (e' : toml.node), j' < j → elems[j']? = some e' →
        ∃ x, (deserialize (T := E) e' (p ++ "[" ++ toString (i0 + j') ++ "]")).2 = .ok x) →
      (array_traversal (E := E) p i0 elems).2 = .error err := by
  intro elems
  induction elems with
  | nil => intro i0 j e err hj; simp at hj
  | cons e0 rest ih =>
    intro i0 j e err hj hd hbefore
    cases j with
    | zero =>
      simp only [List.getElem?_cons_zero, Option.some.injEq] at hj
      subst hj
      rw [Nat.add_zero] at hd
      simp only [array_traversal]
      rcases hd0 : deserialize (T := E) e0 (p ++ "[" ++ toString i0 ++ "]") with ⟨o1, err0 | x⟩
      · rw [hd0] at hd; simpa using hd
      · rw [hd0] at hd; simp at hd
    | succ j' =>
      simp only [List.getElem?_cons_succ] at hj
      obtain ⟨x0, hx0⟩ := hbefore 0 e0 (by omega) (by simp)
      rw [Nat.add_zero] at hx0
      have hidx : i0 + (j' + 1) = i0 + 1 + j' := by omega
      rw [hidx] at hd
      have hrest := ih (i0 + 1) j' e err hj hd (by
        intro j'' e'' hlt hj''
        have hidx' : i0 + 1 + j'' = i0 + (j'' + 1) := by omega
        rw [hidx']
        exact hbefore (j'' + 1) e'' (by omega) (by simpa using hj''))
      simp only [array_traversal]
      rcases hd0 : deserialize (T := E) e0 (p ++ "[" ++ toString i0 ++ "]") with ⟨o1, err0 | x⟩
      · rw [hd0] at hx0; simp at hx0
      · rcases ht : array_traversal (E := E) p (i0 + 1) rest with ⟨o2, err' | xs⟩
        · rw [ht] at hrest; simpa using hrest
        · rw [ht] at hrest; simp at hrest

/-- The array descriptor on an array node is the traversal from index 0. -/
theorem vector_eq_traversal {E : Type} [Deserializer E] (elems : List toml.node) (p : String) :
    deserialize (T := std.vector E) (.array elems) p = array_traversal (E := E) p 0 elems := by
  show vector_loop p elems 0 [] = _
  rw [vector_loop_eq_traversal]
  rcases array_traversal (E := E) p 0 elems with ⟨out, err | xs⟩
  · rfl
  · simp [Except.map]

/-- C7: on an array node with elements `e_0 .. e_{n-1}` and parent path `p`,
the `Array<E>` descriptor is the in-order fail-fast traversal that calls the
descriptor of `E` on `e_i` with the path `p[i]` (same lines written, same
outcome). If every element decodes it succeeds; when it succeeds the result
has exactly `n` elements and element `i` is the decoding of `e_i`; if element
`j` fails and all elements before it decode, it fails with the failure of
element `j`, and returns no collection. For a primitive `E`, an element `j` of
another kind after elements of the right kind is reported at the path `p[j]`
exactly. -/
theorem C7_array (elems : List toml.node) (p : String) :
    (∀ (E : Type) [Deserializer E],
      deserialize (T := Array E) (.array elems) p = array_traversal (E := E) p 0 elems
      ∧ ((∀ (j : Nat) (e : toml.node), elems[j]? = some e →
            ∃ x, (deserialize (T := E) e (p ++ "[" ++ toString j ++ "]")).2 = .ok x) →
          ∃ xs, (deserialize (T := Array E) (.array elems) p).2 = .ok xs)
      ∧ (∀ xs : Array E, (deserialize (T := Array E) (.array elems) p).2 = .ok xs →
          xs.length = elems.length ∧
          ∀ (j : Nat) (e : toml.node), elems[j]? = some e →
            ∃ x, xs[j]? = some x
              ∧ (deserialize (T := E) e (p ++ "[" ++ toString j ++ "]")).2 = .ok x)
      ∧ (∀ (j : Nat) (e : toml.node) (err : Error), elems[j]? = some e →
          (deserialize (T := E) e (p ++ "[" ++ toString j ++ "]")).2 = .error err →
          (∀ (j' : Nat) (e' : toml.node), j' < j → elems[j']? = some e' →
            ∃ x, (deserialize (T := E) e' (p ++ "[" ++ toString j' ++ "]")).2 = .ok x) →
          (deserialize (T := Array E) (.array elems) p).2 = .error err))
    ∧ (∀ (K : Primitive) (j : Nat) (e : toml.node), elems[j]? = some e →
        e.type ≠ tag_of K →
        (∀ (j' : Nat) (e' : toml.node), j' < j → elems[j']? = some e' → e'.type = tag_of K) →
        (@deserialize (Array (type_of K)) (@instVector (type_of K) (inst_of K))
            (.array elems) p).2
          = .error (.runtime_error
              ("toml value for '" ++ (p ++ "[" ++ toString j ++ "]") ++ "' is not a "
                ++ name_of K))) := by
  refine ⟨fun E _ => ⟨vector_eq_traversal elems p, ?_, ?_, ?_⟩, ?_⟩
  · intro h
    obtain ⟨out, xs, ht⟩ := array_traversal_all (E := E) p elems 0 (by
      intro j e hj; rw [Nat.zero_add]; exact h j e hj)
    exact ⟨xs, by rw [vector_eq_traversal, ht]⟩
  · intro xs h
    rw [vector_eq_traversal] at h
    have ht : array_traversal (E := E) p 0 elems
        = ((array_traversal (E := E) p 0 elems).1, .ok xs) := Prod.ext rfl h
    have hok := array_traversal_ok (E := E) p elems 0 _ xs ht
    simp only [Nat.zero_add] at hok
    exact hok
  · intro j e err hj hd hbefore
    rw [vector_eq_traversal]
    exact array_traversal_fail (E := E) p elems 0 j e err hj (by rw [Nat.zero_add]; exact hd)
      (by intro j' e' hlt hj'; rw [Nat.zero_add]; exact hbefore j' e' hlt hj')
  · intro K j e hj hk hbefore
    rw [@vector_eq_traversal (type_of K) (inst_of K)]
    refine @array_traversal_fail (type_of K) (inst_of K) p elems 0 j e _ hj ?_ ?_
    · rw [Nat.zero_add, primitive_mismatch K e _ hk]; rfl
    · intro j' e' hlt hj'
      obtain ⟨x, hx⟩ := node_of_tag K e' (hbefore j' e' hlt hj')
      exact ⟨x, by rw [hx, primitive_accepts K x _]⟩

/-- C7 at the array `[1, "s", true]` decoded as `Array<Integer>` at the path
`xs`: the failure is that of element 1, at the path `xs[1]`. -/
theorem C7_array_witness :
    (@deserialize (Array Integer) (@instVector Integer instInteger)
        (.array [.integer 1, .string "s", .boolean true]) "xs").2
      = .error (.runtime_error "toml value for 'xs[1]' is not a Integer") :=
  (C7_array [.integer 1, .string "s", .boolean true] "xs").2 .Integer 1 (.string "s") rfl
    (by decide)
    (by
      intro j' e' hlt hj'
      have h0 : j' = 0 := by omega
      subst h0
      simp only [List.getElem?_cons_zero, Option.some.injEq] at hj'
      subst hj'
      rfl)

end data

namespace data

theorem assign_entries_keys {V : Type} (k : String) (x : V) :
    ∀ (es : List (String × V)) (k' : String),
      k' ∈ (std.map.assign_entries k x es).map Prod.fst ↔ k' = k ∨ k' ∈ es.map Prod.fst := by
  intro es
  induction es with
  | nil => intro k'; simp [std.map.assign_entries]
  | cons e rest ih =>
    intro k'
    obtain ⟨k0, x0⟩ := e
    simp only [std.map.assign_entries]
    split
    · simp
    · split
      · next heq => subst heq; simp
      · simp only [List.map_cons, List.mem_cons, ih]
        tauto

theorem assign_keys {V : Type} (m : std.map V) (k : String) (x : V) (k' : String) :
    k' ∈ (m.assign k x).keys ↔ k' = k ∨ k' ∈ m.keys :=
  assign_entries_keys k x m.entries k'

/-- After `m[k] = x` the value under `k` is `x`. -/
theorem find_assign_self {V : Type} (m : std.map V) (k : String) (x : V) :
    (m.assign k x).find k = some x := by
  obtain ⟨es⟩ := m
  simp only [std.map.assign, std.map.find]
  induction es with
  | nil => simp [std.map.assign_entries]
  | cons e rest ih =>
    obtain ⟨k0, x0⟩ := e
    simp only [std.map.assign_entries]
    split
    · simp
    · split
      · simp
      · next hne =>
        have hne' : (k0 == k) = false := by
          simp only [beq_eq_false_iff_ne, ne_eq]
          exact fun h => hne h.symm
        simp only [List.find?_cons, hne']
        exact ih

/-- After `m[k] = x` the value under another key is what it was. -/
theorem find_assign_other {V : Type} (m : std.map V) (k k' : String) (x : V) (h : k' ≠ k) :
    (m.assign k x).find k' = m.find k' := by
  obtain ⟨es⟩ := m
  simp only [std.map.assign, std.map.find]
  have hk : (k == k') = false := by
    simp only [beq_eq_false_iff_ne, ne_eq]
    exact fun h' => h h'.symm
  induction es with
  | nil => simp [std.map.assign_entries, hk]
  | cons e rest ih =>
    obtain ⟨k0, x0⟩ := e
    simp only [std.map.assign_entries]
    split
    · simp [List.find?_cons, hk]
    · split
      · next heq => subst heq; simp [List.find?_cons, hk]
      · simp only [List.find?_cons]
        cases hk0 : (k0 == k') with
        | true => rfl
        | false => exact ih

theorem map_loop_cons_ok {V : Type} [Deserializer V] {key : String} {k : String}
    {v : toml.node} {rest : toml.table} {result : std.map V} {out : List String}
    {m : std.map V}
    (h : map_loop key ((k, v) :: rest) result = (out, .ok m)) :
    ∃ out1 x out2, deserialize (T := V) v (key ++ "." ++ _to_key k) = (out1, .ok x)
      ∧ map_loop key rest (result.assign k x) = (out2, .ok m) ∧ out = out1 ++ out2 := by
  simp only [map_loop] at h
  rcases hd : deserialize (T := V) v (key ++ "." ++ _to_key k) with ⟨out1, err | x⟩
  · rw [hd] at h; simp at h
  · rw [hd] at h
    simp only [Prod.mk.injEq] at h
    exact ⟨out1, x, (map_loop key rest (result.assign k x)).1, rfl, Prod.ext rfl h.2, h.1.symm⟩

/-- What the loop of the map descriptor has built when it ends normally:
the keys of the map are those it started with and those of the table; a key
that is not in the table keeps its value; and, the keys of the table being
distinct, each entry's key holds the value of the entry's node. -/
theorem map_loop_ok {V : Type} [Deserializer V] (key : String) :
    ∀ (t : toml.table) (result : std.map V) (out : List String) (m : std.map V),
      map_loop key t result = (out, .ok m) →
      (∀ k, k ∈ m.keys ↔ k ∈ result.keys ∨ k ∈ t.map Prod.fst)
      ∧ (∀ k, k ∉ t.map Prod.fst → m.find k = result.find k)
      ∧ ((t.map Prod.fst).Nodup → ∀ k v, (k, v) ∈ t →
          ∃ x, m.find k = some x
            ∧ (deserialize (T := V) v (key ++ "." ++ _to_key k)).2 = .ok x) := by
  intro t
  induction t with
  | nil =>
    intro result out m h
    simp only [map_loop, Prod.mk.injEq, Except.ok.injEq] at h
    rw [← h.2]
    simp
  | cons e rest ih =>
    intro result out m h
    obtain ⟨k0, v0⟩ := e
    obtain ⟨o1, x0, o2, hd, hrest, _⟩ := map_loop_cons_ok h
    obtain ⟨hkeys, hkeep, hval⟩ := ih (result.assign k0 x0) o2 m hrest
    refine ⟨?_, ?_, ?_⟩
    · intro k
      rw [hkeys k, assign_keys]
      simp only [List.map_cons, List.mem_cons]
      tauto
    · intro k hk
      simp only [List.map_cons, List.mem_cons, not_or] at hk
      rw [hkeep k hk.2, find_assign_other _ _ _ _ hk.1]
    · intro hnd k v hmem
      simp only [List.map_cons, List.nodup_cons] at hnd
      simp only [List.mem_cons, Prod.mk.injEq] at hmem
      rcases hmem with ⟨rfl, rfl⟩ | hmem
      · exact ⟨x0, by rw [hkeep k hnd.1, find_assign_self], by rw [hd]⟩
      · exact hval hnd.2 k v hmem

/-- The loop of the map descriptor ends with the failure of the first entry
that fails. -/
theorem map_loop_fail {V : Type} [Deserializer V] (key : String) :
    ∀ (pre : toml.table) (k : String) (v : toml.node) (post : toml.table)
      (result : std.map V) (err : Error),
      (∀ k' v', (k', v') ∈ pre →
        ∃ x, (deserialize (T := V) v' (key ++ "." ++ _to_key k')).2 = .ok x) →
      (deserialize (T := V) v (key ++ "." ++ _to_key k)).2 = .error err →
      (map_loop key (pre ++ (k, v) :: post) result).2 = .error err := by
  intro pre
  induction pre with
  | nil =>
    intro k v post result err _ hd
    simp only [List.nil_append, map_loop]
    rcases hd0 : deserialize (T := V) v (key ++ "." ++ _to_key k) with ⟨o1, err0 | x⟩
    · rw [hd0] at hd; simpa using hd
    · rw [hd0] at hd; simp at hd
  | cons e rest ih =>
    intro k v post result err hpre hd
    obtain ⟨k0, v0⟩ := e
    obtain ⟨x0, hx0⟩ := hpre k0 v0 (List.mem_cons_self _ _)
    simp only [List.cons_append, map_loop]
    rcases hd0 : deserialize (T := V) v0 (key ++ "." ++ _to_key k0) with ⟨o1, err0 | x⟩
    · rw [hd0] at hx0; simp at hx0
    · exact ih k v post (result.assign k0 x) err
        (fun k' v' hm => hpre k' v' (List.mem_cons_of_mem _ hm)) hd

end data

/-! ## Unknown keys -/

namespace data

theorem mem_insert (s : std.unordered_set) (k k' : String) :
    k' ∈ std.unordered_set.insert s k ↔ k' = k ∨ k' ∈ s := by
  unfold std.unordered_set.insert
  split
  · next h =>
    constructor
    · exact fun hm => Or.inr hm
    · rintro (rfl | hm)
      · exact h
      · exact hm
  · simp

/-- After a `MEMBER` block that ends normally, `_had_keys` holds what it held
before and the keys of all the members of the block. -/
theorem MEMBER_run_had_keys {R : Type} (t : toml.table) (key : String) :
    ∀ (ms : List (Member R)) (r : R) (had : std.unordered_set) (out : List String)
      (r' : R) (had' : std.unordered_set),
      MEMBER_run t key ms r had = (out, .ok (r', had')) →
      ∀ k, k ∈ had' ↔ k ∈ had ∨ k ∈ ms.map Member.name := by
  intro ms
  induction ms with
  | nil =>
    intro r had out r' had' h k
    simp only [MEMBER_run, Prod.mk.injEq, Except.ok.injEq] at h
    rw [← h.2.2]
    simp
  | cons m rest ih =>
    intro r had out r' had' h k
    obtain ⟨o1, r1, o2, _, hrest, _⟩ := MEMBER_run_cons_ok h
    rw [ih r1 _ o2 r' had' hrest k, mem_insert]
    simp only [List.map_cons, List.mem_cons]
    tauto

/-- The warnings written for a table when `_had_keys` holds exactly the keys
`D`: one for each key of the table that is not in `D`, in table order. -/
theorem warning_loop_eq (had : std.unordered_set) (D : List String) (key : String)
    (h : ∀ k, k ∈ had ↔ k ∈ D) :
    ∀ t : toml.table,
      warning_loop had key t
        = ((t.map Prod.fst).filter (fun k => decide (k ∉ D))).map (warning key) := by
  intro t
  induction t with
  | nil => rfl
  | cons e rest ih =>
    obtain ⟨k, v⟩ := e
    simp only [warning_loop, std.unordered_set.contains, List.map_cons, List.filter_cons]
    by_cases hk : k ∈ D
    · have hh : k ∈ had := (h k).mpr hk
      simp [hk, hh, ih]
    · have hh : k ∉ had := fun hm => hk ((h k).mp hm)
      simp [hk, hh, ih]

/-- Added entries with keys outside `D` do not change what is found under a
key of `D`. -/
theorem get_adds_unknown {D : List String} {t t' : toml.table} (h : adds_unknown D t t')
    (k : String) (hk : k ∈ D) : toml.table.get t' k = toml.table.get t k := by
  induction h with
  | nil => rfl
  | keep e t t' _ ih =>
    obtain ⟨k0, v0⟩ := e
    simp only [toml.table.get, ih]
  | add k0 v0 t t' hk0 _ ih =>
    have hne : k0 ≠ k := fun heq => hk0 (heq ▸ hk)
    simp only [toml.table.get, hne, if_false, ih]

theorem bind_adds_unknown {R : Type} {D : List String} {t t' : toml.table}
    (h : adds_unknown D t t') (key : String) (m : Member R) (hm : m.name ∈ D) (r : R) :
    m.bind t' key r = m.bind t key r := by
  cases m with
  | REQUIRE name T inst set =>
    have hg := get_adds_unknown h name hm
    simp only [Member.bind, require, toml.table.at, hg]
  | OPTIONS name T inst set =>
    have hg := get_adds_unknown h name hm
    simp only [Member.bind, options, toml.table.at, toml.table.contains, hg]

/-- Added entries with keys that no member claims do not change the run of
the `MEMBER` block: same lines, same outcome. -/
theorem MEMBER_run_adds_unknown {R : Type} {D : List String} {t t' : toml.table}
    (h : adds_unknown D t t') (key : String) :
    ∀ (ms : List (Member R)) (r : R) (had : std.unordered_set),
      (∀ m ∈ ms, m.name ∈ D) →
      MEMBER_run t' key ms r had = MEMBER_run t key ms r had := by
  intro ms
  induction ms with
  | nil => intro r had _; rfl
  | cons m rest ih =>
    intro r had hD
    rw [MEMBER_run_cons, MEMBER_run_cons,
      bind_adds_unknown h key m (hD m (List.mem_cons_self _ _)) r]
    rcases m.bind t key r with ⟨out, err | r1⟩
    · rfl
    · simp only [ih r1 _ (fun m' hm' => hD m' (List.mem_cons_of_mem _ hm'))]

/-- C9: when all the members of a composite with declared keys `D` bind on
the table `t`, the composite descriptor succeeds with the value the members
built, and after the lines of the members' own conversions it writes the
warnings of a list `W` of keys, in table order, where a key is in `W` exactly
when it is a key of `t` that is not in `D`, and (the keys of `t` being
distinct) no key is in `W` twice: one warning for each key of `t` outside
`D`, none for a key in `D`. `Point` on the table `x`, `y`, `z` succeeds with
the one warning for `z`. -/
theorem C9_unknown_key_diagnostics :
    (∀ (R : Type) (init : R) (MEMBER : List (Member R)) (t : toml.table) (key : String)
        (out0 : List String) (result : R) (had : std.unordered_set),
      MEMBER_run t key MEMBER init [] = (out0, .ok (result, had)) →
      ∃ W : List String,
        composite init MEMBER (.table t) key = (out0 ++ W.map (warning key), .ok result)
        ∧ (∀ k, k ∈ W ↔ k ∈ t.map Prod.fst ∧ k ∉ MEMBER.map Member.name)
        ∧ ((t.map Prod.fst).Nodup → W.Nodup)
        ∧ W.Sublist (t.map Prod.fst))
    ∧ deserialize (T := Point)
          (.table [("x", .integer 1), ("y", .integer 2), ("z", .integer 3)]) ""
        = (["[TOML] Warning: 'z' is ignored."], .ok ⟨1, 2⟩) := by
  refine ⟨?_, rfl⟩
  intro R init MEMBER t key out0 result had h
  have hhad : ∀ k, k ∈ had ↔ k ∈ MEMBER.map Member.name := by
    intro k
    rw [MEMBER_run_had_keys t key MEMBER init [] out0 result had h k]
    simp
  refine ⟨(t.map Prod.fst).filter (fun k => decide (k ∉ MEMBER.map Member.name)), ?_, ?_, ?_, ?_⟩
  · rw [composite_of_MEMBER_run_ok h, warning_loop_eq had _ key hhad t]
  · intro k
    simp only [List.mem_filter, decide_eq_true_eq]
  · exact fun hnd => hnd.filter _
  · exact List.filter_sublist _

/-- C9 at `Point` and the table `x = 1`, `y = 2`, `z = 3`, decoded at the
path `pt`: the warned keys are `z` alone. -/
theorem C9_unknown_key_diagnostics_witness :
    ∃ W : List String,
      composite (⟨0, 0⟩ : Point) Point.MEMBER
          (.table [("x", .integer 1), ("y", .integer 2), ("z", .integer 3)]) "pt"
        = ([] ++ W.map (warning "pt"), .ok ⟨1, 2⟩)
      ∧ (∀ k, k ∈ W ↔ k ∈ (([("x", .integer 1), ("y", .integer 2), ("z", .integer 3)] :
            toml.table).map Prod.fst) ∧ k ∉ Point.MEMBER.map Member.name)
      ∧ ((([("x", .integer 1), ("y", .integer 2), ("z", .integer 3)] :
            toml.table).map Prod.fst).Nodup → W.Nodup)
      ∧ W.Sublist (([("x", .integer 1), ("y", .integer 2), ("z", .integer 3)] :
            toml.table).map Prod.fst) :=
  C9_unknown_key_diagnostics.1 Point ⟨0, 0⟩ Point.MEMBER
    [("x", .integer 1), ("y", .integer 2), ("z", .integer 3)] "pt" [] ⟨1, 2⟩ ["y", "x"] rfl

/-- C10: unknown keys never fail the conversion and never alter the returned
value. For every composite with declared keys `D`, every table `t` and every
table `t'` obtained from `t` by adding entries whose keys are not in `D`, the
outcome of decoding `t'` is the outcome of decoding `t`: both succeed with
the same value, or both fail with the same exception. -/
theorem C10_unknown_keys_do_not_alter (R : Type) (init : R) (MEMBER : List (Member R))
    (t t' : toml.table) (key : String)
    (h : adds_unknown (MEMBER.map Member.name) t t') :
    (composite init MEMBER (.table t') key).2 = (composite init MEMBER (.table t) key).2 := by
  simp only [composite,
    MEMBER_run_adds_unknown h key MEMBER init [] (fun m hm => List.mem_map_of_mem _ hm)]
  rcases MEMBER_run t key MEMBER init [] with ⟨out, err | ⟨r, had⟩⟩ <;> rfl

/-- C10 at `Point`, the table `x = 1`, `y = 2` and the same table with the
entry `z = 3` added. -/
theorem C10_unknown_keys_do_not_alter_witness :
    adds_unknown (Point.MEMBER.map Member.name)
        [("x", .integer 1), ("y", .integer 2)]
        [("x", .integer 1), ("y", .integer 2), ("z", .integer 3)]
    ∧ (composite (⟨0, 0⟩ : Point) Point.MEMBER
          (.table [("x", .integer 1), ("y", .integer 2), ("z", .integer 3)]) "").2
        = (composite (⟨0, 0⟩ : Point) Point.MEMBER
          (.table [("x", .integer 1), ("y", .integer 2)]) "").2 :=
  have hadd : adds_unknown (Point.MEMBER.map Member.name)
      [("x", .integer 1), ("y", .integer 2)]
      [("x", .integer 1), ("y", .integer 2), ("z", .integer 3)] :=
    .keep _ _ _ (.keep _ _ _ (.add "z" (.integer 3) _ _ (by decide) .nil))
  ⟨hadd, C10_unknown_keys_do_not_alter Point ⟨0, 0⟩ Point.MEMBER _ _ "" hadd⟩

end data

/-! ## Fail-fast binding -/

namespace data

/-- After a first part of the `MEMBER` block that ends normally, the block
goes on with the rest from where the first part ended. -/
theorem MEMBER_run_append_of_ok {R : Type} {t : toml.table} {key : String} :
    ∀ (pre rest : List (Member R)) (r : R) (had : std.unordered_set) (out1 : List String)
      (r1 : R) (had1 : std.unordered_set),
      MEMBER_run t key pre r had = (out1, .ok (r1, had1)) →
      MEMBER_run t key (pre ++ rest) r had
        = (out1 ++ (MEMBER_run t key rest r1 had1).1, (MEMBER_run t key rest r1 had1).2) := by
  intro pre
  induction pre with
  | nil =>
    intro rest r had out1 r1 had1 h
    simp only [MEMBER_run, Prod.mk.injEq, Except.ok.injEq] at h
    obtain ⟨ho, hr, hh⟩ := h
    subst ho hr hh
    rfl
  | cons m pre' ih =>
    intro rest r had out1 r1 had1 h
    obtain ⟨o1, r2, o2, hb, hrest, ho⟩ := MEMBER_run_cons_ok h
    have hc : MEMBER_run t key (m :: (pre' ++ rest)) r had
        = (o1 ++ (MEMBER_run t key (pre' ++ rest) r2 (had.insert m.name)).1,
           (MEMBER_run t key (pre' ++ rest) r2 (had.insert m.name)).2) :=
      MEMBER_run_cons_of_ok hb
    rw [List.cons_append, hc, ih rest r2 _ o2 r1 had1 hrest, ho, List.append_assoc]

/-- A member whose binding throws ends the `MEMBER` block with its lines and
its exception. -/
theorem MEMBER_run_cons_of_error {R : Type} {t : toml.table} {key : String} {m : Member R}
    (rest : List (Member R)) {r : R} (had : std.unordered_set) {out : List String}
    {err : Error} (hb : m.bind t key r = (out, .error err)) :
    MEMBER_run t key (m :: rest) r had = (out, .error err) := by
  rw [MEMBER_run_cons, hb]

/-- A composite whose members `pre` bind and whose next member throws. -/
theorem composite_first_failure {R : Type} (init : R) (pre : List (Member R)) (m : Member R)
    (post : List (Member R)) (t : toml.table) (key : String) (out1 : List String) (r1 : R)
    (had1 : std.unordered_set) (out2 : List String) (err : Error)
    (hpre : MEMBER_run t key pre init [] = (out1, .ok (r1, had1)))
    (hm : m.bind t key r1 = (out2, .error err)) :
    composite init (pre ++ m :: post) (.table t) key = (out1 ++ out2, .error err) := by
  simp only [composite, MEMBER_run_append_of_ok pre (m :: post) init [] out1 r1 had1 hpre,
    MEMBER_run_cons_of_error post had1 hm]

/-- C11: binding in a composite is fail-fast. If the members before `m` bind
and the binding of `m` (the first to fail) ends with the exception `err`,
then the composite descriptor ends with exactly `err` and returns no value;
what it has written are the lines of the members before `m` and of `m`; and
the members after `m` leave no trace: whatever they are, the outcome is the
same. -/
theorem C11_fail_fast (R : Type) (init : R) (pre : List (Member R)) (m : Member R)
    (post : List (Member R)) (t : toml.table) (key : String) (out1 : List String) (r1 : R)
    (had1 : std.unordered_set) (out2 : List String) (err : Error)
    (hpre : MEMBER_run t key pre init [] = (out1, .ok (r1, had1)))
    (hm : m.bind t key r1 = (out2, .error err)) :
    composite init (pre ++ m :: post) (.table t) key = (out1 ++ out2, .error err)
    ∧ ∀ post' : List (Member R),
        composite init (pre ++ m :: post') (.table t) key
          = composite init (pre ++ m :: post) (.table t) key := by
  refine ⟨composite_first_failure init pre m post t key out1 r1 had1 out2 err hpre hm, ?_⟩
  intro post'
  rw [composite_first_failure init pre m post t key out1 r1 had1 out2 err hpre hm,
    composite_first_failure init pre m post' t key out1 r1 had1 out2 err hpre hm]

/-- C11 at `Point` and the table `x = "s"`: the member `x` is the first to
fail, and the member `y`, whose key is absent, is never bound. -/
theorem C11_fail_fast_witness :
    composite (⟨0, 0⟩ : Point) Point.MEMBER (.table [("x", .string "s")]) ""
        = ([], .error (.runtime_error "toml value for 'x' is not a Integer"))
    ∧ ∀ post' : List (Member Point),
        composite (⟨0, 0⟩ : Point)
            ([] ++ .REQUIRE "x" Integer instInteger (fun result v => { result with x := v })
              :: post') (.table [("x", .string "s")]) ""
          = composite (⟨0, 0⟩ : Point) Point.MEMBER (.table [("x", .string "s")]) "" :=
  C11_fail_fast Point ⟨0, 0⟩ []
    (.REQUIRE "x" Integer instInteger (fun result v => { result with x := v }))
    [.REQUIRE "y" Integer instInteger (fun result v => { result with y := v })]
    [("x", .string "s")] "" [] ⟨0, 0⟩ [] []
    (.runtime_error "toml value for 'x' is not a Integer") rfl rfl

end data

/-! ## Paths in failures -/

namespace data

theorem descends_trans {p p' q : String} (h1 : descends p p') (h2 : descends p' q) :
    descends p q := by
  induction h2 with
  | here => exact h1
  | index q i _ ih => exact .index q i ih
  | entry q k _ ih => exact .entry q k ih
  | member q k _ ih => exact .member q k ih

theorem eq_empty_of_append_eq_empty (p s : String) (h : p ++ s = "") : p = "" := by
  have hd := congrArg String.data h
  simp only [String.data_append] at hd
  exact String.ext (List.append_eq_nil.mp hd).1

/-- A path reached from `p` has `p` as its beginning. -/
theorem descends_extends {p q : String} (h : descends p q) : ∃ s, q = p ++ s := by
  induction h with
  | here => exact ⟨"", (String.append_empty p).symm⟩
  | index q i _ ih =>
    obtain ⟨s, hs⟩ := ih
    exact ⟨s ++ "[" ++ toString i ++ "]", by
      rw [hs, String.append_assoc, String.append_assoc, String.append_assoc,
        String.append_assoc, String.append_assoc]⟩
  | entry q k _ ih =>
    obtain ⟨s, hs⟩ := ih
    exact ⟨s ++ "." ++ _to_key k, by
      rw [hs, String.append_assoc, String.append_assoc, String.append_assoc]⟩
  | member q k _ ih =>
    obtain ⟨s, hs⟩ := ih
    by_cases hq : q = ""
    · have hp : p = "" := eq_empty_of_append_eq_empty p s (by rw [← hs, hq])
      exact ⟨k, by rw [hq, member_path_root, hp, String.empty_append]⟩
    · exact ⟨s ++ "." ++ _to_key k, by
        rw [member_path_nested k q hq, hs, String.append_assoc, String.append_assoc,
          String.append_assoc]⟩

theorem carries_path_primitive (K : Primitive) : carries_path (type_of K) (inst_of K) := by
  intro v p out err h
  by_cases hk : v.type = tag_of K
  · obtain ⟨x, hx⟩ := node_of_tag K v hk
    rw [hx, primitive_accepts K x p] at h
    simp at h
  · rw [primitive_mismatch K v p hk] at h
    simp only [Prod.mk.injEq, Except.error.injEq] at h
    exact Or.inr ⟨p, .here, by rw [← h.2]; exact .primitive K⟩

theorem carries_path_path (BASE_PATH : fs.path) : carries_path fs.path (instPath BASE_PATH) := by
  intro v p out err h
  by_cases hk : v.type = .string
  · cases v with
    | string s => simp [deserialize, instPath] at h
    | _ => simp [toml.node.type] at hk
  · rw [path_mismatch BASE_PATH v p hk, not_a_string] at h
    simp only [Prod.mk.injEq, Except.error.injEq] at h
    exact Or.inr ⟨p, .here, by rw [← h.2]; exact .primitive .String⟩

/-- A traversal that fails ends with the failure of one of its elements, at
the element's path. -/
theorem array_traversal_error_inv {E : Type} [Deserializer E] (p : String) :
    ∀ (elems : List toml.node) (i0 : Nat) (out : List String) (err : Error),
      array_traversal (E := E) p i0 elems = (out, .error err) →
      ∃ (j : Nat) (e : toml.node) (out' : List String),
        deserialize (T := E) e (p ++ "[" ++ toString j ++ "]") = (out', .error err) := by
  intro elems
  induction elems with
  | nil => intro i0 out err h; simp [array_traversal] at h
  | cons e0 rest ih =>
    intro i0 out err h
    simp only [array_traversal] at h
    rcases hd : deserialize (T := E) e0 (p ++ "[" ++ toString i0 ++ "]") with ⟨o1, err0 | x⟩
    · rw [hd] at h
      simp only [Prod.mk.injEq, Except.error.injEq] at h
      exact ⟨i0, e0, o1, by rw [hd, h.2]⟩
    · rw [hd] at h
      rcases ht : array_traversal (E := E) p (i0 + 1) rest with ⟨o2, err' | xs⟩
      · rw [ht] at h
        simp only [Prod.mk.injEq, Except.error.injEq] at h
        exact ih (i0 + 1) o2 err (by rw [ht, h.2])
      · rw [ht] at h; simp at h

theorem carries_path_vector (E : Type) (inst : Deserializer E) (hE : carries_path E inst) :
    carries_path (std.vector E) instVector := by
  intro v p out err h
  by_cases hk : v.type = .array
  · cases v <;> try (simp [toml.node.type] at hk; done)
    rename_i elems
    rw [vector_eq_traversal] at h
    obtain ⟨j, e, out', hd⟩ := array_traversal_error_inv p elems 0 out err h
    rcases hE e _ out' err hd with hk' | ⟨q, hq, hr⟩
    · exact Or.inl hk'
    · exact Or.inr ⟨q, descends_trans (.index p j .here) hq, hr⟩
  · rw [vector_mismatch E v p hk] at h
    simp only [Prod.mk.injEq, Except.error.injEq] at h
    exact Or.inr ⟨p, .here, by rw [← h.2]; exact .array⟩

/-- A loop of the map descriptor that fails ends with the failure of one of
the entries, at the entry's path. -/
theorem map_loop_error_inv {V : Type} [Deserializer V] (p : String) :
    ∀ (t : toml.table) (result : std.map V) (out : List String) (err : Error),
      map_loop p t result = (out, .error err) →
      ∃ (k : String) (v : toml.node) (out' : List String),
        deserialize (T := V) v (p ++ "." ++ _to_key k) = (out', .error err) := by
  intro t
  induction t with
  | nil => intro result out err h; simp [map_loop] at h
  | cons e rest ih =>
    intro result out err h
    obtain ⟨k0, v0⟩ := e
    simp only [map_loop] at h
    rcases hd : deserialize (T := V) v0 (p ++ "." ++ _to_key k0) with ⟨o1, err0 | x⟩
    · rw [hd] at h
      simp only [Prod.mk.injEq, Except.error.injEq] at h
      exact ⟨k0, v0, o1, by rw [hd, h.2]⟩
    · rw [hd] at h
      simp only [Prod.mk.injEq] at h
      exact ih (result.assign k0 x) _ err (Prod.ext rfl h.2)

theorem carries_path_map (V : Type) (inst : Deserializer V) (hV : carries_path V inst) :
    carries_path (std.map V) instMap := by
  intro v p out err h
  by_cases hk : v.type = .table
  · cases v <;> try (simp [toml.node.type] at hk; done)
    rename_i t
    obtain ⟨k, v', out', hd⟩ := map_loop_error_inv p t ⟨[]⟩ out err h
    rcases hV v' _ out' err hd with hk' | ⟨q, hq, hr⟩
    · exact Or.inl hk'
    · exact Or.inr ⟨q, descends_trans (.entry p k .here) hq, hr⟩
  · rw [map_mismatch V v p hk] at h
    simp only [Prod.mk.injEq, Except.error.injEq] at h
    exact Or.inr ⟨p, .here, by rw [← h.2]; exact .table⟩

/-- A `MEMBER` block that throws has bound the members before some member
`m`, and the binding of `m` has thrown. -/
theorem MEMBER_run_error_inv {R : Type} {t : toml.table} {key : String} :
    ∀ (ms : List (Member R)) (r : R) (had : std.unordered_set) (out : List String)
      (err : Error),
      MEMBER_run t key ms r had = (out, .error err) →
      ∃ (pre : List (Member R)) (m : Member R) (post : List (Member R)) (out1 : List String)
        (r1 : R) (had1 : std.unordered_set) (out2 : List String),
        ms = pre ++ m :: post ∧ MEMBER_run t key pre r had = (out1, .ok (r1, had1))
          ∧ m.bind t key r1 = (out2, .error err) ∧ out = out1 ++ out2 := by
  intro ms
  induction ms with
  | nil => intro r had out err h; simp [MEMBER_run] at h
  | cons m rest ih =>
    intro r had out err h
    rw [MEMBER_run_cons] at h
    rcases hb : m.bind t key r with ⟨o1, err0 | r1⟩
    · rw [hb] at h
      simp only [Prod.mk.injEq, Except.error.injEq] at h
      exact ⟨[], m, rest, [], r, had, o1, rfl, rfl, by rw [hb, h.2], by rw [← h.1]; rfl⟩
    · rw [hb] at h
      simp only [Prod.mk.injEq] at h
      obtain ⟨pre, m', post, out1, r2, had2, out2, hms, hpre, hm', ho⟩ :=
        ih r1 (had.insert m.name) _ err (Prod.ext rfl h.2)
      refine ⟨m :: pre, m', post, o1 ++ out1, r2, had2, out2, by rw [hms]; rfl, ?_, hm', ?_⟩
      · rw [MEMBER_run_cons_of_ok hb, hpre]
      · rw [← h.1, List.append_assoc, ← ho]

/-- The binding of a member whose descriptor carries the path throws either
the exception of an absent key or a kind mismatch reported at a path reached
from the path of the composite. -/
theorem bind_error_carries {R : Type} (m : Member R) (hm : m.carries_path) (t : toml.table)
    (key : String) (r : R) (out : List String) (err : Error)
    (h : m.bind t key r = (out, .error err)) :
    (∃ k, err = .out_of_range ("key '" ++ k ++ "' not found in table"))
      ∨ ∃ q, descends key q ∧ reported_at q err := by
  cases m with
  | REQUIRE name T inst set =>
    cases hg : t.get name with
    | none =>
      have hc : t.contains name = false := by simp [toml.table.contains, hg]
      simp only [Member.bind, @require_of_not_contains T inst t name key hc, Prod.mk.injEq,
        Except.error.injEq] at h
      exact Or.inl ⟨name, h.2.symm⟩
    | some v =>
      simp only [Member.bind, @require_of_get T inst t name key v hg] at h
      rcases hd : @deserialize T inst v (member_path name key) with ⟨o, e | x⟩
      · rw [hd] at h
        simp only [Prod.mk.injEq, Except.error.injEq] at h
        rcases hm v _ o e hd with hk | ⟨q, hq, hr⟩
        · exact Or.inl (h.2 ▸ hk)
        · exact Or.inr ⟨q, descends_trans (.member key name .here) hq, h.2 ▸ hr⟩
      · rw [hd] at h; simp at h
  | OPTIONS name T inst set =>
    cases hg : t.get name with
    | none =>
      have hc : t.contains name = false := by simp [toml.table.contains, hg]
      simp [Member.bind, @options_of_not_contains T inst t name key hc] at h
    | some v =>
      simp only [Member.bind, @options_of_get T inst t name key v hg] at h
      rcases hd : @deserialize T inst v (member_path name key) with ⟨o, e | x⟩
      · rw [hd] at h
        simp only [Except.map, Prod.mk.injEq, Except.error.injEq] at h
        rcases hm v _ o e hd with hk | ⟨q, hq, hr⟩
        · exact Or.inl (h.2 ▸ hk)
        · exact Or.inr ⟨q, descends_trans (.member key name .here) hq, h.2 ▸ hr⟩
      · rw [hd] at h; simp [Except.map] at h

theorem carries_path_composite {R : Type} (init : R) (MEMBER : List (Member R))
    (hM : ∀ m ∈ MEMBER, m.carries_path) :
    carries_path R (TOML_DESERIALIZE R init MEMBER) := by
  intro v p out err h
  by_cases hk : v.type = .table
  · cases v <;> try (simp [toml.node.type] at hk; done)
    rename_i t
    have h' : composite init MEMBER (.table t) p = (out, .error err) := h
    simp only [composite] at h'
    rcases hr : MEMBER_run t p MEMBER init [] with ⟨o, e | ⟨r, had⟩⟩
    · rw [hr] at h'
      simp only [Prod.mk.injEq, Except.error.injEq] at h'
      obtain ⟨pre, m, post, out1, r1, had1, out2, hms, _, hb, _⟩ :=
        MEMBER_run_error_inv MEMBER init [] o e hr
      have hmem : m ∈ MEMBER := by rw [hms]; simp
      exact h'.2 ▸ bind_error_carries m (hM m hmem) t p r1 out2 e hb
    · rw [hr] at h'; simp at h'
  · have h' : composite init MEMBER v p = (out, .error err) := h
    rw [composite_mismatch init MEMBER v p hk] at h'
    simp only [Prod.mk.injEq, Except.error.injEq] at h'
    exact Or.inr ⟨p, .here, by rw [← h'.2]; exact .composite⟩

/-- A traversal that fails ends with the failure of one of the elements of
the array, at the element's path. -/
theorem array_traversal_error_at {E : Type} [Deserializer E] (p : String) :
    ∀ (elems : List toml.node) (i0 : Nat) (out : List String) (err : Error),
      array_traversal (E := E) p i0 elems = (out, .error err) →
      ∃ (j : Nat) (e : toml.node) (out' : List String), elems[j]? = some e
        ∧ deserialize (T := E) e (p ++ "[" ++ toString (i0 + j) ++ "]") = (out', .error err) := by
  intro elems
  induction elems with
  | nil => intro i0 out err h; simp [array_traversal] at h
  | cons e0 rest ih =>
    intro i0 out err h
    simp only [array_traversal] at h
    rcases hd : deserialize (T := E) e0 (p ++ "[" ++ toString i0 ++ "]") with ⟨o1, err0 | x⟩
    · rw [hd] at h
      simp only [Prod.mk.injEq, Except.error.injEq] at h
      exact ⟨0, e0, o1, by simp, by rw [Nat.add_zero, hd, h.2]⟩
    · rw [hd] at h
      rcases ht : array_traversal (E := E) p (i0 + 1) rest with ⟨o2, err' | xs⟩
      · rw [ht] at h
        simp only [Prod.mk.injEq, Except.error.injEq] at h
        obtain ⟨j, e, out', hj, hde⟩ := ih (i0 + 1) o2 err (by rw [ht, h.2])
        have hidx : i0 + (j + 1) = i0 + 1 + j := by omega
        exact ⟨j + 1, e, out', by simpa using hj, by rw [hidx]; exact hde⟩
      · rw [ht] at h; simp at h

/-- A loop of the map descriptor that fails ends with the failure of one of
the entries of the table, at the entry's path. -/
theorem map_loop_error_at {V : Type} [Deserializer V] (p : String) :
    ∀ (t : toml.table) (result : std.map V) (out : List String) (err : Error),
      map_loop p t result = (out, .error err) →
      ∃ (k : String) (v : toml.node) (out' : List String), (k, v) ∈ t
        ∧ deserialize (T := V) v (p ++ "." ++ _to_key k) = (out', .error err) := by
  intro t
  induction t with
  | nil => intro result out err h; simp [map_loop] at h
  | cons e rest ih =>
    intro result out err h
    obtain ⟨k0, v0⟩ := e
    simp only [map_loop] at h
    rcases hd : deserialize (T := V) v0 (p ++ "." ++ _to_key k0) with ⟨o1, err0 | x⟩
    · rw [hd] at h
      simp only [Prod.mk.injEq, Except.error.injEq] at h
      exact ⟨k0, v0, o1, List.mem_cons_self _ _, by rw [hd, h.2]⟩
    · rw [hd] at h
      simp only [Prod.mk.injEq] at h
      obtain ⟨k, v, out', hkv, hde⟩ := ih (result.assign k0 x) _ err (Prod.ext rfl h.2)
      exact ⟨k, v, out', List.mem_cons_of_mem _ hkv, hde⟩

/-- The path of a call that is reached is reached by the steps of a descent
from the path of the first call. -/
theorem reaches_descends {T : Type} {inst : Deserializer T} {v : toml.node} {p : String}
    {T' : Type} {inst' : Deserializer T'} {n : toml.node} {q : String}
    (h : reaches T inst v p T' inst' n q) : descends p q := by
  induction h with
  | here => exact .here
  | element E inst elems i e p T' inst' n q _ _ ih =>
    exact descends_trans (.index p i .here) ih
  | entry V inst t k v p T' inst' n q _ _ ih =>
    exact descends_trans (.entry p k .here) ih
  | required R init MEMBER name T inst set t v p T' inst' n q _ _ _ ih =>
    exact descends_trans (.member p name .here) ih
  | optional R init MEMBER name T inst set t v p T' inst' n q _ _ _ ih =>
    exact descends_trans (.member p name .here) ih

theorem exact_path_primitive (K : Primitive) : exact_path (type_of K) (inst_of K) := by
  intro v p out err h
  by_cases hk : v.type = tag_of K
  · obtain ⟨x, hx⟩ := node_of_tag K v hk
    rw [hx, primitive_accepts K x p] at h
    simp at h
  · rw [primitive_mismatch K v p hk] at h
    simp only [Prod.mk.injEq, Except.error.injEq] at h
    exact ⟨_, _, v, p, .here _ _ v p, by rw [← h.2]; exact .primitive K v p hk⟩

theorem exact_path_path (BASE_PATH : fs.path) : exact_path fs.path (instPath BASE_PATH) := by
  intro v p out err h
  by_cases hk : v.type = .string
  · cases v with
    | string s => simp [deserialize, instPath] at h
    | _ => simp [toml.node.type] at hk
  · rw [path_mismatch BASE_PATH v p hk] at h
    simp only [Prod.mk.injEq, Except.error.injEq] at h
    exact ⟨_, _, v, p, .here _ _ v p, by rw [← h.2]; exact .path BASE_PATH v p hk⟩

theorem exact_path_vector (E : Type) (inst : Deserializer E) (hE : exact_path E inst) :
    exact_path (std.vector E) (@instVector E inst) := by
  intro v p out err h
  by_cases hk : v.type = .array
  · cases v <;> try (simp [toml.node.type] at hk; done)
    rename_i elems
    rw [vector_eq_traversal] at h
    obtain ⟨j, e, out', hj, hd⟩ := array_traversal_error_at p elems 0 out err h
    rw [Nat.zero_add] at hd
    obtain ⟨T', inst', n, q, hr, hf⟩ := hE e _ out' err hd
    exact ⟨T', inst', n, q, .element E inst elems j e p T' inst' n q hj hr, hf⟩
  · rw [vector_mismatch E v p hk] at h
    simp only [Prod.mk.injEq, Except.error.injEq] at h
    exact ⟨_, _, v, p, .here _ _ v p, by rw [← h.2]; exact .array E inst v p hk⟩

theorem exact_path_map (V : Type) (inst : Deserializer V) (hV : exact_path V inst) :
    exact_path (std.map V) (@instMap V inst) := by
  intro v p out err h
  by_cases hk : v.type = .table
  · cases v <;> try (simp [toml.node.type] at hk; done)
    rename_i t
    obtain ⟨k, v', out', hkv, hd⟩ := map_loop_error_at p t ⟨[]⟩ out err h
    obtain ⟨T', inst', n, q, hr, hf⟩ := hV v' _ out' err hd
    exact ⟨T', inst', n, q, .entry V inst t k v' p T' inst' n q hkv hr, hf⟩
  · rw [map_mismatch V v p hk] at h
    simp only [Prod.mk.injEq, Except.error.injEq] at h
    exact ⟨_, _, v, p, .here _ _ v p, by rw [← h.2]; exact .table V inst v p hk⟩

theorem exact_path_composite {R : Type} (init : R) (MEMBER : List (Member R))
    (hM : ∀ m ∈ MEMBER, m.exact_path) :
    exact_path R (TOML_DESERIALIZE R init MEMBER) := by
  intro v p out err h
  by_cases hk : v.type = .table
  · cases v <;> try (simp [toml.node.type] at hk; done)
    rename_i t
    have h' : composite init MEMBER (.table t) p = (out, .error err) := h
    obtain ⟨pre, m, post, out1, r1, had1, out2, hms, _, hb, _⟩ :=
      MEMBER_run_error_inv MEMBER init [] out err (composite_error_inv h')
    have hmem : m ∈ MEMBER := by rw [hms]; simp
    have hmx := hM m hmem
    cases m with
    | REQUIRE name T inst set =>
      cases hg : toml.table.get t name with
      | none =>
        have hc : toml.table.contains t name = false := by simp [toml.table.contains, hg]
        simp only [Member.bind, @require_of_not_contains T inst t name p hc, Prod.mk.injEq,
          Except.error.injEq] at hb
        exact ⟨_, _, .table t, p, .here _ _ _ p, by
          rw [← hb.2]; exact .missing R init MEMBER name T inst set t p hmem hg⟩
      | some v' =>
        simp only [Member.bind, @require_of_get T inst t name p v' hg] at hb
        rcases hd : @deserialize T inst v' (member_path name p) with ⟨o, e | x⟩
        · rw [hd] at hb
          simp only [Prod.mk.injEq, Except.error.injEq] at hb
          obtain ⟨T', inst', n, q, hr, hf⟩ := hmx v' _ o e hd
          exact ⟨T', inst', n, q,
            .required R init MEMBER name T inst set t v' p T' inst' n q hmem hg hr,
            hb.2 ▸ hf⟩
        · rw [hd] at hb; simp at hb
    | OPTIONS name T inst set =>
      cases hg : toml.table.get t name with
      | none =>
        have hc : toml.table.contains t name = false := by simp [toml.table.contains, hg]
        simp [Member.bind, @options_of_not_contains T inst t name p hc] at hb
      | some v' =>
        simp only [Member.bind, @options_of_get T inst t name p v' hg] at hb
        rcases hd : @deserialize T inst v' (member_path name p) with ⟨o, e | x⟩
        · rw [hd] at hb
          simp only [Except.map, Prod.mk.injEq, Except.error.injEq] at hb
          obtain ⟨T', inst', n, q, hr, hf⟩ := hmx v' _ o e hd
          exact ⟨T', inst', n, q,
            .optional R init MEMBER name T inst set t v' p T' inst' n q hmem hg hr,
            hb.2 ▸ hf⟩
        · rw [hd] at hb; simp [Except.map] at hb
  · have h' : composite init MEMBER v p = (out, .error err) := h
    rw [composite_mismatch init MEMBER v p hk] at h'
    simp only [Prod.mk.injEq, Except.error.injEq] at h'
    exact ⟨_, _, v, p, .here _ _ v p, by rw [← h'.2]; exact .composite R init MEMBER v p hk⟩

/-- C12, as stated, fails: the failure of a required member whose key is
absent carries no path. `Point` decoded from the empty table ends with the
same exception at the path `a` and at the path `b`, so no path read off the
exception can begin with `a` in the first call and with `b` in the second. -/
theorem C12_missing_key_has_no_path :
    ¬ ∃ path_of : Error → String,
      (∀ err, (deserialize (T := Point) (.table []) "a").2 = .error err
          → ∃ s, path_of err = "a" ++ s) ∧
      (∀ err, (deserialize (T := Point) (.table []) "b").2 = .error err
          → ∃ s, path_of err = "b" ++ s) := by
  rintro ⟨path_of, h1, h2⟩
  obtain ⟨s1, e1⟩ := h1 (.out_of_range "key 'x' not found in table") rfl
  obtain ⟨s2, e2⟩ := h2 (.out_of_range "key 'x' not found in table") rfl
  rw [e1] at e2
  have hd := congrArg String.data e2
  simp only [String.data_append] at hd
  have hc : ('a' : Char) = 'b' := (List.cons.inj hd).1
  exact absurd hc (by decide)

/-- C12, amended: every failure raised while decoding is raised by a
descriptor call reached from the failing call by the steps of the descent
through the nodes of the document (`reaches`: the element `i` of an array
with the path extended by `[i]`, the entry `k` of a table-as-map with the
path extended by `"." + _to_key(k)`, the node under a member's key with the
member path), at the node where that call fails by itself (`fails_at`). If it
is a kind mismatch, its text carries exactly the path of that call, the path
active at the point of failure; if it is the exception of the document model
for an absent key of a required member, it carries the key and no path. The
path of a call reached from a call with the path `p` begins with `p`: paths
are only extended. This holds for the primitive descriptors and the
filesystem-path descriptor, and is passed on by `Array<E>`, `Table<V>` and
the composites. For the root composite `Config` with
`servers : Array<Server{port : Integer}>`, a non-integer `port` in element 3
is reported at the path `servers[3].port`. -/
theorem C12_failure_paths :
    (∀ K : Primitive, exact_path (type_of K) (inst_of K))
    ∧ (∀ BASE_PATH : fs.path, exact_path fs.path (instPath BASE_PATH))
    ∧ (∀ (E : Type) (inst : Deserializer E), exact_path E inst →
        exact_path (Array E) (@instVector E inst))
    ∧ (∀ (V : Type) (inst : Deserializer V), exact_path V inst →
        exact_path (Table V) (@instMap V inst))
    ∧ (∀ (R : Type) (init : R) (MEMBER : List (Member R)),
        (∀ m ∈ MEMBER, m.exact_path) → exact_path R (TOML_DESERIALIZE R init MEMBER))
    ∧ (∀ (T : Type) (inst : Deserializer T) (v : toml.node) (p : String) (T' : Type)
        (inst' : Deserializer T') (n : toml.node) (q : String),
        reaches T inst v p T' inst' n q → descends p q ∧ ∃ s, q = p ++ s)
    ∧ deserialize (T := Config)
        (.table [("servers", .array [.table [("port", .integer 1)],
          .table [("port", .integer 2)], .table [("port", .integer 3)],
          .table [("port", .string "x")]])]) ""
        = ([], .error (.runtime_error "toml value for 'servers[3].port' is not a Integer"))
    ∧ (∀ K : Primitive, carries_path (type_of K) (inst_of K))
    ∧ (∀ BASE_PATH : fs.path, carries_path fs.path (instPath BASE_PATH))
    ∧ (∀ (E : Type) (inst : Deserializer E), carries_path E inst →
        carries_path (Array E) instVector)
    ∧ (∀ (V : Type) (inst : Deserializer V), carries_path V inst →
        carries_path (Table V) instMap)
    ∧ (∀ (R : Type) (init : R) (MEMBER : List (Member R)),
        (∀ m ∈ MEMBER, m.carries_path) → carries_path R (TOML_DESERIALIZE R init MEMBER))
    ∧ (∀ p q : String, descends p q → ∃ s, q = p ++ s) :=
  ⟨exact_path_primitive, exact_path_path, exact_path_vector, exact_path_map,
   fun _ init MEMBER h => exact_path_composite init MEMBER h,
   fun _ _ _ _ _ _ _ _ h => ⟨reaches_descends h, descends_extends (reaches_descends h)⟩,
   rfl,
   carries_path_primitive, carries_path_path, carries_path_vector, carries_path_map,
   fun _ init MEMBER h => carries_path_composite init MEMBER h,
   fun _ _ h => descends_extends h⟩

/-- C12 at `Array<Point>`, called on the array `[{x = 1, y = 2}, {x = "s"}]`
with the path `pts`: the call fails, and its exception is that of a
descriptor call reached from it (here the Integer descriptor, called on the
node `"s"` with the path `pts[1].x`), failing by itself. -/
theorem C12_failure_paths_witness :
    deserialize (T := Array Point)
        (.array [.table [("x", .integer 1), ("y", .integer 2)], .table [("x", .string "s")]])
        "pts"
      = ([], .error (.runtime_error "toml value for 'pts[1].x' is not a Integer"))
    ∧ ∃ (T' : Type) (inst' : Deserializer T') (n : toml.node) (q : String),
        reaches (Array Point) (@instVector Point instPoint)
            (.array [.table [("x", .integer 1), ("y", .integer 2)],
              .table [("x", .string "s")]]) "pts" T' inst' n q
          ∧ fails_at T' inst' n q
              (.runtime_error "toml value for 'pts[1].x' is not a Integer") :=
  ⟨rfl,
   C12_failure_paths.2.2.1 Point instPoint
    (C12_failure_paths.2.2.2.2.1 Point ⟨0, 0⟩ Point.MEMBER (by
      intro m hm
      simp only [Point.MEMBER, List.mem_cons, List.mem_singleton, List.not_mem_nil,
        or_false] at hm
      rcases hm with rfl | rfl
      · exact C12_failure_paths.1 .Integer
      · exact C12_failure_paths.1 .Integer))
    (.array [.table [("x", .integer 1), ("y", .integer 2)], .table [("x", .string "s")]])
    "pts" [] (.runtime_error "toml value for 'pts[1].x' is not a Integer") rfl⟩

end data

/-! ## The key quoting rule -/

namespace data

/-- `_to_key` on a key all of whose characters are letters, digits or
underscores. -/
theorem to_key_bare (s : String) (h : ∀ c ∈ s.data, (c.isAlphanum || c == '_') = true) :
    _to_key s = s := by
  have hf : s.data.find? (fun c => !c.isAlphanum && c != '_') = none := by
    rw [List.find?_eq_none]
    intro c hc
    have := h c hc
    simp only [Bool.or_eq_true, beq_iff_eq] at this
    rcases this with h1 | h1
    · simp [h1]
    · simp [h1]
  simp only [_to_key, hf]

/-- `_to_key` on a key with a character that is neither a letter, a digit
nor an underscore. -/
theorem to_key_quoted (s : String)
    (h : ∃ c ∈ s.data, (c.isAlphanum || c == '_') = false) :
    _to_key s = "\"" ++ s ++ "\"" := by
  obtain ⟨c, hc, hb⟩ := h
  cases hf : s.data.find? (fun c => !c.isAlphanum && c != '_') with
  | none =>
    rw [List.find?_eq_none] at hf
    have := hf c hc
    simp only [Bool.or_eq_false_iff] at hb
    simp [hb.1] at this
    rw [this] at hb
    simp at hb
  | some c' => simp only [_to_key, hf]

/-- A key is rendered bare or quoted. -/
theorem to_key_cases (s : String) :
    ((∀ c ∈ s.data, (c.isAlphanum || c == '_') = true) ∧ _to_key s = s)
    ∨ ((∃ c ∈ s.data, (c.isAlphanum || c == '_') = false) ∧ _to_key s = "\"" ++ s ++ "\"") := by
  by_cases h : ∀ c ∈ s.data, (c.isAlphanum || c == '_') = true
  · exact Or.inl ⟨h, to_key_bare s h⟩
  · have h' : ∃ c ∈ s.data, (c.isAlphanum || c == '_') = false := by
      by_contra hn
      apply h
      intro c hc
      cases hb : (c.isAlphanum || c == '_') with
      | true => rfl
      | false => exact absurd ⟨c, hc, hb⟩ hn
    exact Or.inr ⟨h', to_key_quoted s h'⟩

/-- Two words without the delimiter `d`, each followed by nothing or by a
text that starts with `d`: if the two texts are the same, so are the words
and what follows them. -/
theorem split_at_delim (d : Char) :
    ∀ (x x' A A' : List Char), d ∉ x → d ∉ x' →
      (A = [] ∨ ∃ r, A = d :: r) → (A' = [] ∨ ∃ r, A' = d :: r) →
      x ++ A = x' ++ A' → x = x' ∧ A = A' := by
  intro x
  induction x with
  | nil =>
    intro x' A A' _ hx' hA _ h
    cases x' with
    | nil => exact ⟨rfl, h⟩
    | cons c cs =>
      simp only [List.nil_append, List.cons_append] at h
      rcases hA with hA | ⟨r, hA⟩
      · rw [hA] at h; simp at h
      · rw [hA] at h
        have hc : d = c := (List.cons.inj h).1
        exact absurd (hc ▸ List.mem_cons_self _ _) hx'
  | cons c cs ih =>
    intro x' A A' hx hx' hA hA' h
    cases x' with
    | nil =>
      simp only [List.nil_append, List.cons_append] at h
      rcases hA' with hA' | ⟨r, hA'⟩
      · rw [hA'] at h; simp at h
      · rw [hA'] at h
        have hc : c = d := (List.cons.inj h).1
        exact absurd (hc ▸ List.mem_cons_self _ _) hx
    | cons c' cs' =>
      simp only [List.cons_append] at h
      obtain ⟨hc, ht⟩ := List.cons.inj h
      obtain ⟨h1, h2⟩ := ih cs' A A' (fun hm => hx (List.mem_cons_of_mem _ hm))
        (fun hm => hx' (List.mem_cons_of_mem _ hm)) hA hA' ht
      exact ⟨by rw [hc, h1], h2⟩

theorem render_chars_form (ks : List String) :
    render_chars ks = [] ∨ ∃ r, render_chars ks = '.' :: r := by
  cases ks with
  | nil => exact Or.inl rfl
  | cons k ks => exact Or.inr ⟨_, rfl⟩

theorem bare_not_dot (k : String) (h : ∀ c ∈ k.data, (c.isAlphanum || c == '_') = true) :
    '.' ∉ k.data := fun hm => absurd (h '.' hm) (by decide)

theorem bare_not_quote (k : String) (h : ∀ c ∈ k.data, (c.isAlphanum || c == '_') = true) :
    '"' ∉ k.data := fun hm => absurd (h '"' hm) (by decide)

theorem quoted_data (k : String) : ("\"" ++ k ++ "\"").data = '"' :: (k.data ++ ['"']) := by
  simp only [String.data_append]
  rfl

/-- A bare rendering followed by more keys is never a quoted rendering
followed by more keys. -/
theorem bare_ne_quoted (k k' : String) (R R' : List Char)
    (hk : ∀ c ∈ k.data, (c.isAlphanum || c == '_') = true)
    (hR : R = [] ∨ ∃ r, R = '.' :: r)
    (h : k.data ++ R = '"' :: (k'.data ++ ['"']) ++ R') : False := by
  cases hd : k.data with
  | nil =>
    rw [hd] at h
    simp only [List.nil_append, List.cons_append] at h
    rcases hR with hR | ⟨r, hR⟩
    · rw [hR] at h; simp at h
    · rw [hR] at h
      exact absurd (List.cons.inj h).1 (by decide)
  | cons c cs =>
    rw [hd] at h
    simp only [List.cons_append] at h
    have hc : c = '"' := (List.cons.inj h).1
    have hm : '"' ∈ k.data := by rw [hd, ← hc]; exact List.mem_cons_self _ _
    exact bare_not_quote k hk hm

/-- The characters appended for a descent determine the keys, when no key
holds a double quote. -/
theorem render_chars_injective :
    ∀ (ks ks' : List String), (∀ k ∈ ks, '"' ∉ k.data) → (∀ k ∈ ks', '"' ∉ k.data) →
      render_chars ks = render_chars ks' → ks = ks' := by
  intro ks
  induction ks with
  | nil =>
    intro ks' _ _ h
    cases ks' with
    | nil => rfl
    | cons k' ks' => simp [render_chars] at h
  | cons k ks ih =>
    intro ks' hq hq' h
    cases ks' with
    | nil => simp [render_chars] at h
    | cons k' ks' =>
      simp only [render_chars, List.cons.injEq, true_and] at h
      have hkq : '"' ∉ k.data := hq k (List.mem_cons_self _ _)
      have hkq' : '"' ∉ k'.data := hq' k' (List.mem_cons_self _ _)
      have hrest := ih ks' (fun x hx => hq x (List.mem_cons_of_mem _ hx))
        (fun x hx => hq' x (List.mem_cons_of_mem _ hx))
      rcases to_key_cases k with ⟨hb, hk⟩ | ⟨_, hk⟩ <;>
        rcases to_key_cases k' with ⟨hb', hk'⟩ | ⟨_, hk'⟩
      · rw [hk, hk'] at h
        obtain ⟨h1, h2⟩ := split_at_delim '.' k.data k'.data _ _ (bare_not_dot k hb)
          (bare_not_dot k' hb') (render_chars_form ks) (render_chars_form ks') h
        rw [String.ext h1, hrest h2]
      · rw [hk, hk', quoted_data] at h
        exact absurd (bare_ne_quoted k k' _ _ hb (render_chars_form ks) h) id
      · rw [hk, hk', quoted_data] at h
        exact absurd (bare_ne_quoted k' k _ _ hb' (render_chars_form ks') h.symm) id
      · rw [hk, hk', quoted_data, quoted_data] at h
        simp only [List.cons_append, List.append_assoc, List.singleton_append, List.cons.injEq,
          true_and] at h
        obtain ⟨h1, h2⟩ := split_at_delim '"' k.data k'.data _ _ hkq hkq'
          (Or.inr ⟨_, rfl⟩) (Or.inr ⟨_, rfl⟩) h
        rw [String.ext h1, hrest (List.cons.inj h2).2]

/-- The text of `render_keys` is the path followed by the characters
appended for the keys. -/
theorem render_keys_data : ∀ (ks : List String) (p : String),
    (render_keys p ks).data = p.data ++ render_chars ks := by
  intro ks
  induction ks with
  | nil => intro p; simp [render_keys, render_chars]
  | cons k ks ih =>
    intro p
    have hstep : render_keys p (k :: ks) = render_keys (p ++ "." ++ _to_key k) ks := rfl
    rw [hstep, ih]
    simp only [String.data_append, render_chars, List.append_assoc]
    rfl

/-- C13, as stated, fails: the key `a b"."c d` alone and the keys `a b`,
`c d` in turn are two different sequences of table keys with the same
rendering `."a b"."c d"`. -/
theorem C13_rendering_not_injective :
    render_keys "" ["a b\".\"c d"] = render_keys "" ["a b", "c d"]
    ∧ ["a b\".\"c d"] ≠ ["a b", "c d"] :=
  ⟨by decide, by decide⟩

/-- C13, amended: the rendering of a descent through table keys (each step
appending `"." + _to_key(key)`) is injective on the sequences of keys that
hold no double quote: from the same path, two such sequences with the same
rendering are the same sequence. -/
theorem C13_rendering_injective (p : String) (ks ks' : List String)
    (hq : ∀ k ∈ ks, '"' ∉ k.data) (hq' : ∀ k ∈ ks', '"' ∉ k.data)
    (h : render_keys p ks = render_keys p ks') : ks = ks' := by
  have hd := congrArg String.data h
  rw [render_keys_data, render_keys_data] at hd
  exact render_chars_injective ks ks' hq hq' (List.append_cancel_left hd)

/-- C13 at the keys `a`, `b c` and the path `cfg`. -/
theorem C13_rendering_injective_witness :
    render_keys "cfg" ["a", "b c"] = "cfg.a.\"b c\"" ∧ ["a", "b c"] = ["a", "b c"] :=
  ⟨by decide,
   C13_rendering_injective "cfg" ["a", "b c"] ["a", "b c"] (by decide) (by decide) rfl⟩

end data

/-! ## The warning line and the filesystem paths -/

namespace data

/-- The warning line, by the path it names: the quoted key alone under the
root path, and the path, a dot and the quoted key otherwise. -/
theorem warning_eq (p k : String) :
    warning p k
      = "[TOML] Warning: '" ++ (if p = "" then _to_key k else p ++ "." ++ _to_key k)
          ++ "' is ignored." := by
  by_cases hp : p = ""
  · subst hp
    simp [warning, String.isEmpty]
  · have he : p.isEmpty = false := by
      cases h : p.isEmpty with
      | false => rfl
      | true => exact absurd ((String.isEmpty_iff p).mp h) hp
    simp only [warning, he, hp, if_false, String.append_assoc]
    rfl

/-- C14, as stated, fails: the line does not begin with `[CONFIG]`. `Point`
decoded at the path `srv` from the table `x = 1`, `y = 2`, `"c d" = 3`
writes the one line `[TOML] Warning: 'srv."c d"' is ignored.`, and the line
`[CONFIG] Warning: 'srv."c d"' is ignored.` is not written. -/
theorem C14_line_is_not_CONFIG :
    deserialize (T := Point)
        (.table [("x", .integer 1), ("y", .integer 2), ("c d", .integer 3)]) "srv"
      = (["[TOML] Warning: 'srv.\"c d\"' is ignored."], .ok ⟨1, 2⟩)
    ∧ "[CONFIG] Warning: 'srv.\"c d\"' is ignored." ∉
        (deserialize (T := Point)
          (.table [("x", .integer 1), ("y", .integer 2), ("c d", .integer 3)]) "srv").1 := by
  refine ⟨rfl, ?_⟩
  have h : (deserialize (T := Point)
      (.table [("x", .integer 1), ("y", .integer 2), ("c d", .integer 3)]) "srv").1
      = ["[TOML] Warning: 'srv.\"c d\"' is ignored."] := rfl
  rw [h]
  decide

/-- C14, amended: for every composite decoded at the path `p` whose members
bind, what is written after the lines of the members' own conversions is,
for every leftover key `k` of the table (a key no member claims) and for no
other key, exactly the line `[TOML] Warning: '<path>' is ignored.`, where
`<path>` is `p + "." + _to_key(k)` for a non-empty `p` and `_to_key(k)` with
no leading separator when `p` is the root path. -/
theorem C14_warning_line (R : Type) (init : R) (MEMBER : List (Member R)) (t : toml.table)
    (p : String) (out0 : List String) (result : R) (had : std.unordered_set)
    (h : MEMBER_run t p MEMBER init [] = (out0, .ok (result, had))) :
    ∃ W : List String,
      composite init MEMBER (.table t) p
        = (out0 ++ W.map (fun k =>
            "[TOML] Warning: '" ++ (if p = "" then _to_key k else p ++ "." ++ _to_key k)
              ++ "' is ignored."), .ok result)
      ∧ (∀ k, k ∈ W ↔ k ∈ t.map Prod.fst ∧ k ∉ MEMBER.map Member.name) := by
  have hhad : ∀ k, k ∈ had ↔ k ∈ MEMBER.map Member.name := by
    intro k
    rw [MEMBER_run_had_keys t p MEMBER init [] out0 result had h k]
    simp
  refine ⟨(t.map Prod.fst).filter (fun k => decide (k ∉ MEMBER.map Member.name)), ?_, ?_⟩
  · rw [composite_of_MEMBER_run_ok h, warning_loop_eq had _ p hhad t]
    have hw : warning p = fun k =>
        "[TOML] Warning: '" ++ (if p = "" then _to_key k else p ++ "." ++ _to_key k)
          ++ "' is ignored." := funext (warning_eq p)
    rw [hw]
  · intro k
    simp only [List.mem_filter, decide_eq_true_eq]

/-- C14 at `Point` decoded at the root from the table `x = 1`, `y = 2`,
`z = 3`: the line names the path `z`, with no leading separator. -/
theorem C14_warning_line_witness :
    ∃ W : List String,
      composite (⟨0, 0⟩ : Point) Point.MEMBER
          (.table [("x", .integer 1), ("y", .integer 2), ("z", .integer 3)]) ""
        = ([] ++ W.map (fun k =>
            "[TOML] Warning: '" ++ (if "" = "" then _to_key k else "" ++ "." ++ _to_key k)
              ++ "' is ignored."), .ok ⟨1, 2⟩)
      ∧ (∀ k, k ∈ W ↔ k ∈ (([("x", .integer 1), ("y", .integer 2), ("z", .integer 3)] :
            toml.table).map Prod.fst) ∧ k ∉ Point.MEMBER.map Member.name) :=
  C14_warning_line Point ⟨0, 0⟩ Point.MEMBER
    [("x", .integer 1), ("y", .integer 2), ("z", .integer 3)] "" [] ⟨1, 2⟩ ["y", "x"] rfl

/-- C16: for every string node `s` and every `BASE_PATH` `b`, the
filesystem-path descriptor succeeds, writes nothing, and returns the lexical
normalization of `b / s` when `s` is a relative path and the lexical
normalization of `s` itself, whatever `b` is, when `s` is absolute. With
`BASE_PATH = /etc/app` the value `cfg/sub.toml` gives `/etc/app/cfg/sub.toml`
(also through the composite `Path` of `tests/path.cpp`), the value
`cfg/../x/./y.toml` gives `/etc/app/x/y.toml`, and the value `/abs/p` is
returned unchanged. (The normalization is the library's: a root directory of
several separators is kept, so the value `//` gives `//`, and the value `a`
under the `BASE_PATH` `//` gives `//a`.) -/
theorem C16_filesystem_path :
    (∀ (b : fs.path) (s p : String), (fs.path.of_string s).is_relative = true →
      @deserialize fs.path (instPath b) (.string s) p
        = ([], .ok (fs.path.lexically_normal (b.append (fs.path.of_string s)))))
    ∧ (∀ (b : fs.path) (s p : String), (fs.path.of_string s).is_relative = false →
      @deserialize fs.path (instPath b) (.string s) p
        = ([], .ok (fs.path.lexically_normal (fs.path.of_string s))))
    ∧ @deserialize fs.path (instPath (fs.path.of_string "/etc/app"))
          (.string "cfg/sub.toml") "path"
        = ([], .ok (fs.path.of_string "/etc/app/cfg/sub.toml"))
    ∧ @deserialize fs.path (instPath (fs.path.of_string "/etc/app"))
          (.string "cfg/../x/./y.toml") "path"
        = ([], .ok (fs.path.of_string "/etc/app/x/y.toml"))
    ∧ @deserialize fs.path (instPath (fs.path.of_string "/etc/app")) (.string "/abs/p") "path"
        = ([], .ok (fs.path.of_string "/abs/p"))
    ∧ @deserialize Path (instPathStruct (fs.path.of_string "/etc/app"))
          (.table [("path", .string "cfg/sub.toml")]) ""
        = ([], .ok ⟨fs.path.of_string "/etc/app/cfg/sub.toml"⟩)
    ∧ (fs.path.of_string "/etc/app/cfg/sub.toml").native = "/etc/app/cfg/sub.toml"
    ∧ (@deserialize fs.path (instPath (fs.path.of_string "/etc/app")) (.string "//") "path").2
        = .ok (fs.path.of_string "//")
    ∧ ((@deserialize fs.path (instPath (fs.path.of_string "//")) (.string "a") "path").2.map
          fs.path.native)
        = .ok "//a" := by
  refine ⟨?_, ?_, rfl, rfl, rfl, rfl, rfl, rfl, rfl⟩
  · intro b s p h
    simp only [deserialize, instPath, h, if_true]
  · intro b s p h
    simp only [deserialize, instPath, h, Bool.false_eq_true, if_false]

/-- C16 at `BASE_PATH = /srv` with the relative value `a/b` and the absolute
value `/x/../y`. -/
theorem C16_filesystem_path_witness :
    @deserialize fs.path (instPath (fs.path.of_string "/srv")) (.string "a/b") "k"
        = ([], .ok (fs.path.lexically_normal
            (fs.path.append (fs.path.of_string "/srv") (fs.path.of_string "a/b"))))
    ∧ @deserialize fs.path (instPath (fs.path.of_string "/srv")) (.string "/x/../y") "k"
        = ([], .ok (fs.path.lexically_normal (fs.path.of_string "/x/../y"))) :=
  ⟨C16_filesystem_path.1 (fs.path.of_string "/srv") "a/b" "k" (by decide),
   C16_filesystem_path.2.1 (fs.path.of_string "/srv") "/x/../y" "k" (by decide)⟩

end data

/-! ## The order of the member declarations -/

namespace data

/-- A binding is the member's conversion, its assignment applied to
`result`. -/
theorem bind_eq_convert {R : Type} (m : Member R) (t : toml.table) (key : String) (r : R) :
    m.bind t key r = ((m.convert t key).1, (m.convert t key).2.map (fun f => f r)) := by
  cases m with
  | REQUIRE name T inst set =>
    simp only [Member.bind, Member.convert]
    rcases @require T inst t name key with ⟨out, err | x⟩ <;> rfl
  | OPTIONS name T inst set =>
    simp only [Member.bind, Member.convert]
    rcases @options T inst t name key with ⟨out, err | x⟩ <;> rfl

theorem convert_of_bind_ok {R : Type} {m : Member R} {t : toml.table} {key : String} {r r1 : R}
    {out : List String} (h : m.bind t key r = (out, .ok r1)) :
    ∃ f, m.convert t key = (out, .ok f) ∧ r1 = f r := by
  rw [bind_eq_convert] at h
  rcases hc : m.convert t key with ⟨o, err | f⟩
  · rw [hc] at h; simp [Except.map] at h
  · rw [hc] at h
    simp only [Except.map, Prod.mk.injEq, Except.ok.injEq] at h
    exact ⟨f, by rw [h.1], h.2.symm⟩

theorem bind_of_convert_ok {R : Type} {m : Member R} {t : toml.table} {key : String}
    {out : List String} {f : R → R} (h : m.convert t key = (out, .ok f)) (r : R) :
    m.bind t key r = (out, .ok (f r)) := by
  rw [bind_eq_convert, h]
  rfl

/-- The assignments of two members that commute can be made in either
order. -/
theorem convert_commute {R : Type} {m m' : Member R} (hc : m.commutes m') {t : toml.table}
    {key : String} {out out' : List String} {f g : R → R}
    (hf : m.convert t key = (out, .ok f)) (hg : m'.convert t key = (out', .ok g)) (r : R) :
    f (g r) = g (f r) := by
  cases m with
  | REQUIRE name T inst set =>
    cases m' with
    | REQUIRE name' T' inst' set' =>
      simp only [Member.convert] at hf hg
      rcases hx : @require T inst t name key with ⟨o, e | x⟩
      · rw [hx] at hf; simp at hf
      · rcases hy : @require T' inst' t name' key with ⟨o', e' | y⟩
        · rw [hy] at hg; simp at hg
        · rw [hx] at hf; rw [hy] at hg
          simp only [Prod.mk.injEq, Except.ok.injEq] at hf hg
          rw [← hf.2, ← hg.2]
          exact hc r x y
    | OPTIONS name' T' inst' set' =>
      simp only [Member.convert] at hf hg
      rcases hx : @require T inst t name key with ⟨o, e | x⟩
      · rw [hx] at hf; simp at hf
      · rcases hy : @options T' inst' t name' key with ⟨o', e' | y⟩
        · rw [hy] at hg; simp at hg
        · rw [hx] at hf; rw [hy] at hg
          simp only [Prod.mk.injEq, Except.ok.injEq] at hf hg
          rw [← hf.2, ← hg.2]
          exact hc r x y
  | OPTIONS name T inst set =>
    cases m' with
    | REQUIRE name' T' inst' set' =>
      simp only [Member.convert] at hf hg
      rcases hx : @options T inst t name key with ⟨o, e | x⟩
      · rw [hx] at hf; simp at hf
      · rcases hy : @require T' inst' t name' key with ⟨o', e' | y⟩
        · rw [hy] at hg; simp at hg
        · rw [hx] at hf; rw [hy] at hg
          simp only [Prod.mk.injEq, Except.ok.injEq] at hf hg
          rw [← hf.2, ← hg.2]
          exact hc r x y
    | OPTIONS name' T' inst' set' =>
      simp only [Member.convert] at hf hg
      rcases hx : @options T inst t name key with ⟨o, e | x⟩
      · rw [hx] at hf; simp at hf
      · rcases hy : @options T' inst' t name' key with ⟨o', e' | y⟩
        · rw [hy] at hg; simp at hg
        · rw [hx] at hf; rw [hy] at hg
          simp only [Prod.mk.injEq, Except.ok.injEq] at hf hg
          rw [← hf.2, ← hg.2]
          exact hc r x y

/-- The lines and the value of a `MEMBER` block do not depend on what
`_had_keys` holds at its start. -/
theorem MEMBER_run_had_indep {R : Type} {t : toml.table} {key : String} :
    ∀ (ms : List (Member R)) (r : R) (had had' : std.unordered_set) (out : List String)
      (r' : R) (hf : std.unordered_set),
      MEMBER_run t key ms r had = (out, .ok (r', hf)) →
      ∃ hf', MEMBER_run t key ms r had' = (out, .ok (r', hf')) := by
  intro ms
  induction ms with
  | nil =>
    intro r had had' out r' hf h
    simp only [MEMBER_run, Prod.mk.injEq, Except.ok.injEq] at h
    exact ⟨had', by simp only [MEMBER_run]; rw [h.1, h.2.1]⟩
  | cons m rest ih =>
    intro r had had' out r' hf h
    obtain ⟨o1, r1, o2, hb, hrest, ho⟩ := MEMBER_run_cons_ok h
    obtain ⟨hf', hrest'⟩ := ih r1 _ (had'.insert m.name) o2 r' hf hrest
    exact ⟨hf', by rw [MEMBER_run_cons_of_ok hb, hrest', ho]⟩

/-- A `MEMBER` block that ends normally ends normally in every order of its
statements, with the same value and the same lines up to their order, when
the keys are distinct and members of different keys commute. -/
theorem MEMBER_run_perm {R : Type} (t : toml.table) (key : String) {l l' : List (Member R)}
    (hperm : l.Perm l') :
    (l.map Member.name).Nodup →
    (∀ m ∈ l, ∀ m' ∈ l, m.name ≠ m'.name → m.commutes m') →
    ∀ (r : R) (had had' : std.unordered_set) (out : List String) (r' : R)
      (hf : std.unordered_set),
      MEMBER_run t key l r had = (out, .ok (r', hf)) →
      ∃ out' hf', MEMBER_run t key l' r had' = (out', .ok (r', hf')) ∧ out.Perm out' := by
  induction hperm with
  | nil =>
    intro _ _ r had had' out r' hf h
    simp only [MEMBER_run, Prod.mk.injEq, Except.ok.injEq] at h
    exact ⟨[], had', by simp only [MEMBER_run]; rw [h.2.1], by rw [← h.1]⟩
  | cons x _ ih =>
    intro hnd hcomm r had had' out r' hf h
    obtain ⟨o1, r1, o2, hb, hrest, ho⟩ := MEMBER_run_cons_ok h
    simp only [List.map_cons, List.nodup_cons] at hnd
    obtain ⟨o2', hf', hrun, hp⟩ := ih hnd.2
      (fun m hm m' hm' => hcomm m (List.mem_cons_of_mem _ hm) m' (List.mem_cons_of_mem _ hm'))
      r1 _ (had'.insert x.name) o2 r' hf hrest
    exact ⟨o1 ++ o2', hf', by rw [MEMBER_run_cons_of_ok hb, hrun],
      by rw [ho]; exact hp.append_left o1⟩
  | swap x y l =>
    intro hnd hcomm r had had' out r' hf h
    obtain ⟨oy, ry, o1, hby, hrest1, ho1⟩ := MEMBER_run_cons_ok h
    obtain ⟨ox, rxy, o, hbx, hrest, ho2⟩ := MEMBER_run_cons_ok hrest1
    obtain ⟨g, hcg, hry⟩ := convert_of_bind_ok hby
    obtain ⟨f, hcf, hrxy⟩ := convert_of_bind_ok hbx
    simp only [List.map_cons, List.nodup_cons, List.mem_cons, not_or] at hnd
    have hne : x.name ≠ y.name := fun he => hnd.1.1 he.symm
    have hxy : x.commutes y :=
      hcomm x (List.mem_cons_of_mem _ (List.mem_cons_self _ _)) y (List.mem_cons_self _ _) hne
    have hval : g (f r) = rxy := by rw [hrxy, hry]; exact (convert_commute hxy hcf hcg r).symm
    obtain ⟨hf', hrun⟩ := MEMBER_run_had_indep l rxy _
      ((had'.insert x.name).insert y.name) o r' hf hrest
    refine ⟨ox ++ (oy ++ o), hf', ?_, ?_⟩
    · rw [MEMBER_run_cons_of_ok (bind_of_convert_ok hcf r),
        MEMBER_run_cons_of_ok (bind_of_convert_ok hcg (f r)), hval, hrun]
    · rw [ho1, ho2, ← List.append_assoc, ← List.append_assoc]
      exact List.perm_append_comm.append_right o
  | trans h1 h2 ih1 ih2 =>
    intro hnd hcomm r had had' out r' hf h
    obtain ⟨o2, hf2, hrun2, hp2⟩ := ih1 hnd hcomm r had had' out r' hf h
    have hnd2 := ((h1.map Member.name).nodup_iff).mp hnd
    obtain ⟨o3, hf3, hrun3, hp3⟩ := ih2 hnd2
      (fun m hm m' hm' => hcomm m (h1.mem_iff.mpr hm) m' (h1.mem_iff.mpr hm'))
      r had' had' o2 r' hf2 hrun2
    exact ⟨o3, hf3, hrun3, hp2.trans hp3⟩

/-- A composite that succeeds succeeds under every permutation of its member
statements, with the same value and the same lines up to their order. -/
theorem composite_perm {R : Type} (init : R) {MEMBER MEMBER' : List (Member R)}
    (hperm : MEMBER.Perm MEMBER') (t : toml.table) (key : String)
    (hnd : (MEMBER.map Member.name).Nodup)
    (hcomm : ∀ m ∈ MEMBER, ∀ m' ∈ MEMBER, m.name ≠ m'.name → m.commutes m')
    (out : List String) (result : R)
    (h : composite init MEMBER (.table t) key = (out, .ok result)) :
    ∃ out', composite init MEMBER' (.table t) key = (out', .ok result) ∧ out.Perm out' := by
  obtain ⟨out0, had, hr, ho⟩ := composite_ok_inv h
  obtain ⟨out0', had', hr', hp⟩ :=
    MEMBER_run_perm t key hperm hnd hcomm init [] [] out0 result had hr
  have hhad : ∀ k, k ∈ had ↔ k ∈ MEMBER.map Member.name := by
    intro k
    rw [MEMBER_run_had_keys t key MEMBER init [] out0 result had hr k]
    simp
  have hhad' : ∀ k, k ∈ had' ↔ k ∈ MEMBER.map Member.name := by
    intro k
    rw [MEMBER_run_had_keys t key MEMBER' init [] out0' result had' hr' k]
    simp only [List.not_mem_nil, false_or]
    exact ((hperm.map Member.name).mem_iff).symm
  refine ⟨out0' ++ warning_loop had' key t, composite_of_MEMBER_run_ok hr', ?_⟩
  rw [ho, warning_loop_eq had _ key hhad t, warning_loop_eq had' _ key hhad' t]
  exact hp.append_right _

/-- C15, as stated, fails: with pairwise distinct member keys alone the
declaration order can change the value. The block
`_TOML_REQUIRE(x, "a"); _TOML_REQUIRE(x, "b");` of a `Point` has the distinct
keys `a` and `b`, both bound to the member `x`; on the table `a = 1`, `b = 2`
it gives `x = 2`, and with the two statements swapped it gives `x = 1`. -/
theorem C15_order_matters :
    (([.REQUIRE "a" Integer instInteger (fun result v => { result with x := v }),
        .REQUIRE "b" Integer instInteger (fun result v => { result with x := v })] :
        List (Member Point)).map Member.name).Nodup
    ∧ List.Perm
        ([.REQUIRE "a" Integer instInteger (fun result v => { result with x := v }),
          .REQUIRE "b" Integer instInteger (fun result v => { result with x := v })] :
          List (Member Point))
        [.REQUIRE "b" Integer instInteger (fun result v => { result with x := v }),
          .REQUIRE "a" Integer instInteger (fun result v => { result with x := v })]
    ∧ composite (⟨0, 0⟩ : Point)
        [.REQUIRE "a" Integer instInteger (fun result v => { result with x := v }),
          .REQUIRE "b" Integer instInteger (fun result v => { result with x := v })]
        (.table [("a", .integer 1), ("b", .integer 2)]) "" = ([], .ok ⟨2, 0⟩)
    ∧ composite (⟨0, 0⟩ : Point)
        [.REQUIRE "b" Integer instInteger (fun result v => { result with x := v }),
          .REQUIRE "a" Integer instInteger (fun result v => { result with x := v })]
        (.table [("a", .integer 1), ("b", .integer 2)]) "" = ([], .ok ⟨1, 0⟩) :=
  ⟨by decide, List.Perm.swap _ _ [], rfl, rfl⟩

/-- C15, amended: the declaration order of a composite's members does not
affect the result when each key is bound to a member of its own. For every
composite whose member keys are pairwise distinct, members of different keys
assigning different members of the result (their assignments commute, as
with `TOML_REQUIRE(k)` and `TOML_OPTIONS(k)`, where the key is the member's
name), every permutation of its member statements and every table, decoding
under the permuted block succeeds if and only if decoding under the original
one succeeds, and then both return the same value and write the same lines
up to their order. -/
theorem C15_declaration_order (R : Type) (init : R) (MEMBER MEMBER' : List (Member R))
    (t : toml.table) (key : String) (hperm : MEMBER.Perm MEMBER')
    (hnd : (MEMBER.map Member.name).Nodup)
    (hcomm : ∀ m ∈ MEMBER, ∀ m' ∈ MEMBER, m.name ≠ m'.name → m.commutes m') :
    (∀ (out : List String) (result : R),
      composite init MEMBER (.table t) key = (out, .ok result) →
      ∃ out', composite init MEMBER' (.table t) key = (out', .ok result) ∧ out.Perm out')
    ∧ (∀ (out' : List String) (result : R),
      composite init MEMBER' (.table t) key = (out', .ok result) →
      ∃ out, composite init MEMBER (.table t) key = (out, .ok result) ∧ out.Perm out') := by
  refine ⟨fun out result h => composite_perm init hperm t key hnd hcomm out result h, ?_⟩
  intro out' result h
  obtain ⟨out, ho, hp⟩ := composite_perm init hperm.symm t key
    (((hperm.map Member.name).nodup_iff).mp hnd)
    (fun m hm m' hm' => hcomm m (hperm.mem_iff.mpr hm) m' (hperm.mem_iff.mpr hm'))
    out' result h
  exact ⟨out, ho, hp.symm⟩

/-- C15 at `Point` with its two member statements swapped, on the table
`x = 1`, `y = 2`, `z = 3`. -/
theorem C15_declaration_order_witness :
    ∃ out', composite (⟨0, 0⟩ : Point)
        [.REQUIRE "y" Integer instInteger (fun result v => { result with y := v }),
         .REQUIRE "x" Integer instInteger (fun result v => { result with x := v })]
        (.table [("x", .integer 1), ("y", .integer 2), ("z", .integer 3)]) ""
          = (out', .ok ⟨1, 2⟩)
      ∧ List.Perm ["[TOML] Warning: 'z' is ignored."] out' :=
  (C15_declaration_order Point ⟨0, 0⟩ Point.MEMBER
    [.REQUIRE "y" Integer instInteger (fun result v => { result with y := v }),
     .REQUIRE "x" Integer instInteger (fun result v => { result with x := v })]
    [("x", .integer 1), ("y", .integer 2), ("z", .integer 3)] ""
    (List.Perm.swap _ _ [])
    (by decide)
    (by
      intro m hm m' hm' hne
      simp only [Point.MEMBER, List.mem_cons, List.mem_singleton, List.not_mem_nil,
        or_false] at hm hm'
      rcases hm with rfl | rfl <;> rcases hm' with rfl | rfl
      · exact absurd rfl hne
      · intro r x y; rfl
      · intro r x y; rfl
      · exact absurd rfl hne)).1
    ["[TOML] Warning: 'z' is ignored."] ⟨1, 2⟩ rfl

end data

/-! ## Warnings of a failed conversion, the quoting rule, the root path -/

namespace data

theorem isAlphanum_iff (c : Char) :
    (c.isAlphanum || c == '_') = true
      ↔ (('a' ≤ c ∧ c ≤ 'z') ∨ ('A' ≤ c ∧ c ≤ 'Z') ∨ ('0' ≤ c ∧ c ≤ '9') ∨ c = '_') := by
  simp only [Char.isAlphanum, Char.isAlpha, Char.isUpper, Char.isLower, Char.isDigit,
    Bool.or_eq_true, Bool.and_eq_true, decide_eq_true_eq, beq_iff_eq]
  constructor
  · rintro (((h | h) | h) | h)
    · exact Or.inr (Or.inl h)
    · exact Or.inl h
    · exact Or.inr (Or.inr (Or.inl h))
    · exact Or.inr (Or.inr (Or.inr h))
  · rintro (h | h | h | h)
    · exact Or.inl (Or.inl (Or.inr h))
    · exact Or.inl (Or.inl (Or.inl h))
    · exact Or.inl (Or.inr h)
    · exact Or.inr h

/-- C18: `_to_key` is the quoting rule. For every string `s`, `_to_key(s)` is
`s` when every character of `s` is an ASCII letter, a digit or an underscore
(so for the empty string), and `s` between two double quotes otherwise, the
characters of `s` unchanged (a double quote in `s` is not escaped); so
`_to_key("b")` is `b` and `_to_key("b c")` is `"b c"`. -/
theorem C18_to_key :
    (∀ s : String,
      (∀ c ∈ s.data, ('a' ≤ c ∧ c ≤ 'z') ∨ ('A' ≤ c ∧ c ≤ 'Z') ∨ ('0' ≤ c ∧ c ≤ '9') ∨ c = '_') →
      _to_key s = s)
    ∧ (∀ s : String,
      ¬ (∀ c ∈ s.data,
          ('a' ≤ c ∧ c ≤ 'z') ∨ ('A' ≤ c ∧ c ≤ 'Z') ∨ ('0' ≤ c ∧ c ≤ '9') ∨ c = '_') →
      _to_key s = "\"" ++ s ++ "\"")
    ∧ _to_key "" = ""
    ∧ _to_key "b" = "b"
    ∧ _to_key "b c" = "\"b c\""
    ∧ _to_key "a\"b" = "\"a\"b\"" := by
  refine ⟨?_, ?_, by decide, by decide, by decide, by decide⟩
  · intro s h
    exact to_key_bare s (fun c hc => (isAlphanum_iff c).mpr (h c hc))
  · intro s h
    rcases to_key_cases s with ⟨hb, _⟩ | ⟨_, hq⟩
    · exact absurd (fun c hc => (isAlphanum_iff c).mp (hb c hc)) h
    · exact hq

/-- C18 at the keys `max_size` and `max-size`. -/
theorem C18_to_key_witness :
    _to_key "max_size" = "max_size" ∧ _to_key "max-size" = "\"" ++ "max-size" ++ "\"" :=
  ⟨C18_to_key.1 "max_size" (by decide), C18_to_key.2.1 "max-size" (by decide)⟩

end data

namespace data

/-- The table-as-map descriptor on a table of one entry: the descriptor of
the value at the path of the call, a dot and the quoted key. -/
theorem map_single {V : Type} [Deserializer V] (k : String) (v : toml.node) (p : String) :
    deserialize (T := std.map V) (.table [(k, v)]) p
      = ((deserialize (T := V) v (p ++ "." ++ _to_key k)).1,
         (deserialize (T := V) v (p ++ "." ++ _to_key k)).2.map
            (fun x => (⟨[(k, x)]⟩ : std.map V))) := by
  show map_loop p [(k, v)] ⟨[]⟩ = _
  simp only [map_loop]
  rcases deserialize (T := V) v (p ++ "." ++ _to_key k) with ⟨out, err | x⟩
  · rfl
  · simp [Except.map, std.map.assign, std.map.assign_entries]

theorem to_key_length (k : String) : k.length ≤ (_to_key k).length := by
  rcases to_key_cases k with ⟨_, h⟩ | ⟨_, h⟩
  · rw [h]
  · rw [h, String.length_append, String.length_append]
    omega

/-- The root path of a table-as-map entry is never the key itself. -/
theorem dot_key_ne (k : String) : "." ++ _to_key k ≠ k := by
  intro h
  have hl := congrArg String.length h
  rw [String.length_append] at hl
  have h1 : (".").length = 1 := rfl
  have := to_key_length k
  omega

/-- The table-as-map descriptor with the probe as value descriptor: the loop
ends normally and writes nothing. -/
theorem map_loop_called (p : String) :
    ∀ (t : toml.table) (result : std.map Called),
      ∃ m, map_loop (V := Called) p t result = ([], .ok m) := by
  intro t
  induction t with
  | nil => intro result; exact ⟨result, rfl⟩
  | cons e rest ih =>
    intro result
    obtain ⟨k0, v0⟩ := e
    obtain ⟨m, hm⟩ := ih (result.assign k0 ⟨p ++ "." ++ _to_key k0⟩)
    exact ⟨m, by
      have hd : deserialize (T := Called) v0 (p ++ "." ++ _to_key k0)
          = ([], .ok ⟨p ++ "." ++ _to_key k0⟩) := rfl
      simp only [map_loop, hd, hm, List.append_nil]⟩

/-- The path the table-as-map descriptor hands to the descriptor of each
entry, shown by the probe: for every table with distinct keys, the map
returned holds under each key `k` the path `p + "." + _to_key(k)`. -/
theorem map_called (t : toml.table) (p : String) (hnd : (t.map Prod.fst).Nodup) :
    ∃ m : std.map Called,
      deserialize (T := std.map Called) (.table t) p = ([], .ok m)
        ∧ ∀ k v, (k, v) ∈ t → m.find k = some ⟨p ++ "." ++ _to_key k⟩ := by
  obtain ⟨m, hm⟩ := map_loop_called p t ⟨[]⟩
  refine ⟨m, hm, ?_⟩
  intro k v hkv
  obtain ⟨_, _, hval⟩ := map_loop_ok p t ⟨[]⟩ [] m hm
  obtain ⟨x, hx, hd⟩ := hval hnd k v hkv
  have hd' : (Except.ok ⟨p ++ "." ++ _to_key k⟩ : Except Error Called) = .ok x := hd
  rw [hx, ← Except.ok.inj hd']

/-- C19: at the root path the two table descriptors render the path of a
key differently. For every key `k` of every table, a table-as-map decoded at
the root path calls the descriptor of the entry with the path
`"." + _to_key(k)` (leading separator, key quoted if needed), whereas
`require` and `options` of a composite decoded at the root path call the
member's descriptor with the path `k` exactly (no separator, no quoting), and
the two paths are never the same; under a non-empty path `p` all three use
`p + "." + _to_key(k)`. The probe `Called` returns the path it is called
with; the table-as-map parts are for every table (its keys distinct, as in a
`toml::table`) and every entry of it. -/
theorem C19_root_paths :
    (∀ (V : Type) [Deserializer V] (k : String) (v : toml.node),
      deserialize (T := Table V) (.table [(k, v)]) ""
        = ((deserialize (T := V) v ("." ++ _to_key k)).1,
           (deserialize (T := V) v ("." ++ _to_key k)).2.map
              (fun x => (⟨[(k, x)]⟩ : Table V))))
    ∧ (∀ (T : Type) [Deserializer T] (t : toml.table) (k : String) (v : toml.node),
      t.get k = some v →
      require (T := T) t k "" = deserialize (T := T) v k
      ∧ options (T := T) t k ""
          = ((deserialize (T := T) v k).1, (deserialize (T := T) v k).2.map some))
    ∧ (∀ k : String, "." ++ _to_key k ≠ k)
    ∧ (∀ (V : Type) [Deserializer V] (t : toml.table) (k p : String) (v : toml.node),
      p ≠ "" → t.get k = some v →
      deserialize (T := Table V) (.table [(k, v)]) p
          = ((deserialize (T := V) v (p ++ "." ++ _to_key k)).1,
             (deserialize (T := V) v (p ++ "." ++ _to_key k)).2.map
                (fun x => (⟨[(k, x)]⟩ : Table V)))
      ∧ require (T := V) t k p = deserialize (T := V) v (p ++ "." ++ _to_key k)
      ∧ options (T := V) t k p
          = ((deserialize (T := V) v (p ++ "." ++ _to_key k)).1,
             (deserialize (T := V) v (p ++ "." ++ _to_key k)).2.map some))
    ∧ deserialize (T := Table Called) (.table [("b c", .integer 1)]) ""
        = ([], .ok ⟨[("b c", ⟨".\"b c\""⟩)]⟩)
    ∧ require (T := Called) [("b c", .integer 1)] "b c" "" = ([], .ok ⟨"b c"⟩)
    ∧ options (T := Called) [("b c", .integer 1)] "b c" "" = ([], .ok (some ⟨"b c"⟩))
    ∧ deserialize (T := Table Called) (.table [("b c", .integer 1)]) "p"
        = ([], .ok ⟨[("b c", ⟨"p.\"b c\""⟩)]⟩)
    ∧ require (T := Called) [("b c", .integer 1)] "b c" "p" = ([], .ok ⟨"p.\"b c\""⟩)
    ∧ options (T := Called) [("b c", .integer 1)] "b c" "p"
        = ([], .ok (some ⟨"p.\"b c\""⟩))
    ∧ (∀ t : toml.table, (t.map Prod.fst).Nodup →
      ∃ m : Table Called,
        deserialize (T := Table Called) (.table t) "" = ([], .ok m)
          ∧ ∀ k v, (k, v) ∈ t → m.find k = some ⟨"." ++ _to_key k⟩)
    ∧ (∀ (t : toml.table) (p : String), (t.map Prod.fst).Nodup →
      ∃ m : Table Called,
        deserialize (T := Table Called) (.table t) p = ([], .ok m)
          ∧ ∀ k v, (k, v) ∈ t → m.find k = some ⟨p ++ "." ++ _to_key k⟩)
    ∧ (∀ (t : toml.table) (k : String) (v : toml.node), t.get k = some v →
      require (T := Called) t k "" = ([], .ok ⟨k⟩)
      ∧ options (T := Called) t k "" = ([], .ok (some ⟨k⟩)))
    ∧ (∀ (t : toml.table) (k p : String) (v : toml.node), p ≠ "" → t.get k = some v →
      require (T := Called) t k p = ([], .ok ⟨p ++ "." ++ _to_key k⟩)
      ∧ options (T := Called) t k p = ([], .ok (some ⟨p ++ "." ++ _to_key k⟩)))
    ∧ (∀ (V : Type) [Deserializer V] (t : toml.table) (p : String) (m : Table V),
      (deserialize (T := Table V) (.table t) p).2 = .ok m → (t.map Prod.fst).Nodup →
      ∀ k v, (k, v) ∈ t →
        ∃ x, m.find k = some x
          ∧ (deserialize (T := V) v (p ++ "." ++ _to_key k)).2 = .ok x)
    ∧ (∀ (V : Type) [Deserializer V] (p : String) (pre : toml.table) (k : String)
        (v : toml.node) (post : toml.table) (err : Error),
      (∀ k' v', (k', v') ∈ pre →
        ∃ x, (deserialize (T := V) v' (p ++ "." ++ _to_key k')).2 = .ok x) →
      (deserialize (T := V) v (p ++ "." ++ _to_key k)).2 = .error err →
      (deserialize (T := Table V) (.table (pre ++ (k, v) :: post)) p).2 = .error err) := by
  refine ⟨?_, ?_, dot_key_ne, ?_, rfl, rfl, rfl, rfl, rfl, rfl, ?_, ?_, ?_, ?_, ?_, ?_⟩
  · intro V _ k v
    exact map_single k v ""
  · intro T _ t k v hv
    refine ⟨?_, ?_⟩
    · rw [require_of_get t k "" v hv, member_path_root]
    · rw [options_of_get t k "" v hv, member_path_root]
  · intro V _ t k p v hp hv
    refine ⟨map_single k v p, ?_, ?_⟩
    · rw [require_of_get t k p v hv, member_path_nested k p hp]
    · rw [options_of_get t k p v hv, member_path_nested k p hp]
  · intro t hnd
    exact map_called t "" hnd
  · intro t p hnd
    exact map_called t p hnd
  · intro t k v hv
    refine ⟨?_, ?_⟩
    · rw [require_of_get t k "" v hv, member_path_root]; rfl
    · rw [options_of_get t k "" v hv, member_path_root]; rfl
  · intro t k p v hp hv
    refine ⟨?_, ?_⟩
    · rw [require_of_get t k p v hv, member_path_nested k p hp]; rfl
    · rw [options_of_get t k p v hv, member_path_nested k p hp]; rfl
  · intro V _ t p m h hnd k v hkv
    have hl : map_loop (V := V) p t ⟨[]⟩ = ((map_loop (V := V) p t ⟨[]⟩).1, .ok m) :=
      Prod.ext rfl h
    exact (map_loop_ok p t ⟨[]⟩ _ m hl).2.2 hnd k v hkv
  · intro V _ p pre k v post err hpre hd
    exact map_loop_fail p pre k v post ⟨[]⟩ err hpre hd

/-- C19 at the key `port`, with the Integer descriptor: at the root the
required binding hands on the path `port`, and under `srv` the path
`srv.port`; and at the table `a b = 1`, `c = 2` decoded as a table-as-map of
probes at the root, where each key holds its root path. -/
theorem C19_root_paths_witness :
    (require (T := Integer) [("port", .string "x")] "port" ""
        = deserialize (T := Integer) (.string "x") "port"
      ∧ options (T := Integer) [("port", .string "x")] "port" ""
        = ((deserialize (T := Integer) (.string "x") "port").1,
           (deserialize (T := Integer) (.string "x") "port").2.map some))
    ∧ require (T := Integer) [("port", .string "x")] "port" "srv"
        = deserialize (T := Integer) (.string "x") ("srv" ++ "." ++ _to_key "port")
    ∧ (∃ m : Table Called,
        deserialize (T := Table Called) (.table [("a b", .integer 1), ("c", .integer 2)]) ""
            = ([], .ok m)
          ∧ ∀ k v, (k, v) ∈ ([("a b", .integer 1), ("c", .integer 2)] : toml.table) →
              m.find k = some ⟨"." ++ _to_key k⟩) :=
  ⟨C19_root_paths.2.1 Integer [("port", .string "x")] "port" (.string "x") rfl,
   (C19_root_paths.2.2.2.1 Integer [("port", .string "x")] "port" "srv" (.string "x")
      (by decide) rfl).2.1,
   C19_root_paths.2.2.2.2.2.2.2.2.2.2.1 [("a b", .integer 1), ("c", .integer 2)]
      (by decide)⟩

/-- C20, as stated, fails in its converse: a failing composite also writes
the lines of the conversion of the member that fails. `Polygon` decoded from
`points = [{x = 1, y = 2, z = 3}, {x = "s"}]` fails in its first member, so
no member is bound before the failure; yet the warning for `points[0].z`,
written while the failing member was converted, has been emitted. -/
theorem C20_failing_member_writes :
    Polygon.MEMBER
        = [] ++ [.REQUIRE "points" (Array Point) instVector
            (fun result v => { result with points := v })]
    ∧ MEMBER_run
        [("points", .array [.table [("x", .integer 1), ("y", .integer 2), ("z", .integer 3)],
          .table [("x", .string "s")]])] "" ([] : List (Member Polygon)) ⟨[]⟩ []
        = ([], .ok (⟨[]⟩, []))
    ∧ deserialize (T := Polygon)
        (.table [("points", .array [.table [("x", .integer 1), ("y", .integer 2),
          ("z", .integer 3)], .table [("x", .string "s")]])]) ""
        = (["[TOML] Warning: 'points[0].z' is ignored."],
           .error (.runtime_error "toml value for 'points[1].x' is not a Integer")) :=
  ⟨rfl, rfl, rfl⟩

/-- C20, amended: a failed conversion can still have produced diagnostics.
`Shape` decoded from `origin = {x = 1, y = 2, z = 3}`, `sides = "four"`
fails, and the warning for `origin.z` has been written by the nested
composite member `origin`, converted before the member `sides` failed.
Conversely, the lines written by a composite that fails on a table are
exactly the lines of the conversions of the members bound before the
failure, followed by the lines written by the conversion of the member that
fails; the exception is that member's. -/
theorem C20_diagnostics_of_failure :
    deserialize (T := Shape)
        (.table [("origin", .table [("x", .integer 1), ("y", .integer 2), ("z", .integer 3)]),
          ("sides", .string "four")]) ""
      = (["[TOML] Warning: 'origin.z' is ignored."],
         .error (.runtime_error "toml value for 'sides' is not a Integer"))
    ∧ (∀ (R : Type) (init : R) (MEMBER : List (Member R)) (t : toml.table) (key : String)
        (out : List String) (err : Error),
      composite init MEMBER (.table t) key = (out, .error err) →
      ∃ (pre : List (Member R)) (m : Member R) (post : List (Member R)) (out1 : List String)
        (r1 : R) (had1 : std.unordered_set) (out2 : List String),
        MEMBER = pre ++ m :: post
          ∧ MEMBER_run t key pre init [] = (out1, .ok (r1, had1))
          ∧ m.bind t key r1 = (out2, .error err)
          ∧ out = out1 ++ out2) := by
  refine ⟨rfl, ?_⟩
  intro R init MEMBER t key out err h
  exact MEMBER_run_error_inv MEMBER init [] out err (composite_error_inv h)

/-- C20 at `Point` and the table `x = 1`, `y = "s"`: the member `x` is bound
before the failure of the member `y`. -/
theorem C20_diagnostics_of_failure_witness :
    ∃ (pre : List (Member Point)) (m : Member Point) (post : List (Member Point))
      (out1 : List String) (r1 : Point) (had1 : std.unordered_set) (out2 : List String),
      Point.MEMBER = pre ++ m :: post
        ∧ MEMBER_run [("x", .integer 1), ("y", .string "s")] "" pre ⟨0, 0⟩ []
            = (out1, .ok (r1, had1))
        ∧ m.bind [("x", .integer 1), ("y", .string "s")] "" r1
            = (out2, .error (.runtime_error "toml value for 'y' is not a Integer"))
        ∧ ([] : List String) = out1 ++ out2 :=
  C20_diagnostics_of_failure.2 Point ⟨0, 0⟩ Point.MEMBER
    [("x", .integer 1), ("y", .string "s")] "" []
    (.runtime_error "toml value for 'y' is not a Integer") rfl

end data
